import Mathlib

/-!
Verification development for the DNP3 streaming dissector core (src/dissect.c).

The file shallowly embeds the transport-layer reassembly pipeline:
  * segments and byte-equality (`segment_equal`, dissect.c:19),
  * the token alphabet and tokenizer (`transport_tokens`, dissect.c:56),
  * the compiled LALR recognizer for the transport-function grammar
      tfun   := series | [^A]
      series := A+ [+=]* (Z | [^AZ+=])
    (dissect.c:174-191), modelled as the equivalent deterministic machine
    (`stepStart`/`stepState`) together with the payload action `act_series`
    (dissect.c:125-156, `seriesBytes`),
  * the per-segment driver `process_transport_segment` (dissect.c:335-373)
    including the iterative-parse bookkeeping of `feed_tfun`/`init_tfun`
    (tfun_pos baseline, restart after completion),
  * the context table with its LRU scan `lookup_context` (dissect.c:250-300),
  * the per-frame driver `process_link_frame` (dissect.c:375-426).

Modelling conventions:
  * Bytes are `Nat`; a segment's `len` is `payload.length` (the segment
    parser guarantees the two agree).
  * The hammer iterative-parse API is modelled as: `h_parse_chunk` consumes
    tokens until the parse either suspends (needs more input), accepts, or
    hits a token with no LALR action; in the latter two cases it reports
    "done" and `h_parse_finish` returns the result - `some` AST for an
    accepting parse (possibly with a NULL ast, as produced by `h_ignore`
    and by `act_series` on an invalid series), and NULL for a failed one.
  * `assert` failures are recorded in a sticky `ok : Bool` flag and
    execution continues as in an NDEBUG build; a run with `ok = false` is
    one that aborts in a debug build.
  * The C code passes token values through the process-wide `ttok_values`
    table indexed by absolute token position minus the `ttok_pos` baseline;
    the model attaches the segment value directly to the `A` and `+`
    tokens, the only ones whose values the actions consult
    (`ttok` wraps only `A` and `pls`, dissect.c:175-177).
  * The app-message parse inside `process_transport_payload`
    (dissect.c:302-324) uses the external application parser; it only
    emits app-layer events and is outside every claim, so the model keeps
    the `transport_payload` emission and the `ctx->n = 0` flush and omits
    the app dispatch.
-/

set_option linter.unusedVariables false

namespace Dnp3

/-- A DNP3 transport segment (fields as used by dissect.c); `len` is
`payload.length`. -/
structure DNP3_Segment where
  fir : Bool
  fin : Bool
  seq : Nat
  payload : List Nat
  deriving Repr, DecidableEq

/-- `segment_equal` (dissect.c:19-28): byte-by-byte identity of two
segments.  `a->len == b->len && memcmp(a->payload, b->payload, a->len) == 0`
is list equality of the payloads once `len = |payload|`. -/
def segment_equal (a b : DNP3_Segment) : Bool :=
  a.fir == b.fir && a.fin == b.fin && a.seq == b.seq &&
    a.payload.length == b.payload.length && a.payload == b.payload

/-- The transport-function input alphabet (dissect.c:30-44), with the
segment value attached to the tokens whose value the recognizer's actions
consult (`A` and `+`; dissect.c:175-177). -/
inductive TokV where
  | A (v : DNP3_Segment)
  | eq
  | plus (v : DNP3_Segment)
  | bang
  | orph
  | Z
  deriving Repr, DecidableEq

/-- `transport_tokens` (dissect.c:56-83): classify an incoming segment
relative to the previous one and add a `Z` token when FIN is set. -/
def transport_tokens (seg : DNP3_Segment) (last : Option DNP3_Segment) : List TokV :=
  (if seg.fir then TokV.A seg
   else
     match last with
     | some l =>
         if segment_equal seg l then TokV.eq
         else if seg.seq == (l.seq + 1) % 64 then TokV.plus seg
         else TokV.bang
     | none => TokV.orph)
  :: (if seg.fin then [TokV.Z] else [])

/-- State of a suspended transport-function parse.  `afterA a` has consumed
`A+` with `a` the value of the last `A` (the `h_right (A, A1)` chain keeps
only the last one, dissect.c:187); `inPE a xs` has additionally consumed
one or more `[+=]` tokens with `xs` the values of the `+` tokens in order
(`=` is `h_ignore`d, dissect.c:184). -/
inductive TfunState where
  | afterA (a : DNP3_Segment)
  | inPE (a : DNP3_Segment) (xs : List DNP3_Segment)
  deriving Repr, DecidableEq

/-- `act_series` payload assembly (dissect.c:139-153): the last `A`
segment's payload followed by the payloads of the `+` segments in order. -/
def seriesBytes (a : DNP3_Segment) (xs : List DNP3_Segment) : List Nat :=
  a.payload ++ (xs.map (fun s => s.payload)).flatten

/-- Result of feeding one token to the recognizer: continue, complete with
an optional AST (NULL for the `[^A]` alternative and for an invalid series,
dissect.c:134-135), or a token with no LALR action (parse failure). -/
inductive StepRes where
  | more (st : TfunState)
  | done (ast : Option (List Nat))
  | fail
  deriving Repr, DecidableEq

/-- First token of a fresh parse instance of
`tfun = series | h_ignore notA` (dissect.c:189). -/
def stepStart : TokV → StepRes
  | TokV.A v => StepRes.more (TfunState.afterA v)
  | _ => StepRes.done none

/-- Feeding one token to a suspended parse.  An `A` after the series has
entered its `[+=]*` part has no action in the LALR table for
`A+ [+=]* (Z | [^AZ+=])`: the parse fails. -/
def stepState : TfunState → TokV → StepRes
  | TfunState.afterA _, TokV.A v => StepRes.more (TfunState.afterA v)
  | TfunState.afterA a, TokV.plus v => StepRes.more (TfunState.inPE a [v])
  | TfunState.afterA a, TokV.eq => StepRes.more (TfunState.inPE a [])
  | TfunState.afterA a, TokV.Z => StepRes.done (some (seriesBytes a []))
  | TfunState.afterA _, TokV.bang => StepRes.done none
  | TfunState.afterA _, TokV.orph => StepRes.done none
  | TfunState.inPE a xs, TokV.plus v => StepRes.more (TfunState.inPE a (xs ++ [v]))
  | TfunState.inPE a xs, TokV.eq => StepRes.more (TfunState.inPE a xs)
  | TfunState.inPE a xs, TokV.Z => StepRes.done (some (seriesBytes a xs))
  | TfunState.inPE _ _, TokV.bang => StepRes.done none
  | TfunState.inPE _ _, TokV.orph => StepRes.done none
  | TfunState.inPE _ _, TokV.A _ => StepRes.fail

/-- Events emitted to the sink (hooks in dissect.c; app-layer events
omitted, see the module comment). -/
inductive FrameFunc where
  | unconfirmedUserData
  | confirmedUserData
  | other
  deriving Repr, DecidableEq

/-- A link-layer frame as seen by the core: function code, addresses and
the user-data payload (`none` on CRC error). -/
structure DNP3_Frame where
  func : FrameFunc
  source : Nat
  destination : Nat
  payload : Option (List Nat)
  deriving Repr, DecidableEq

/-- Sink events relevant to the claims. -/
inductive Event where
  | link_frame (f : DNP3_Frame) (raw : List Nat)
  | transport_reject
  | transport_segment (s : DNP3_Segment)
  | transport_payload (bytes : List Nat)
  deriving Repr, DecidableEq

/-- Per-connection context (struct Context).  `buf` holds the first `n`
raw bytes (`n = buf.length`); `tfun = none` means no parse in progress. -/
structure Context where
  src : Nat
  dst : Nat
  last_segment : DNP3_Segment
  tfun : Option TfunState
  tfun_pos : Nat
  buf : List Nat
  deriving Repr, DecidableEq

/-- The zero segment a calloc'ed context starts with
(`fir=fin=0, seq=0, len=0, payload=NULL`). -/
def zeroSegment : DNP3_Segment := ⟨false, false, 0, []⟩

/-- A freshly calloc'ed context (dissect.c:278). -/
def freshContext (src dst : Nat) : Context :=
  ⟨src, dst, zeroSegment, none, 0, []⟩

/-- Accumulator for the `feed_tfun` loop inside
`process_transport_segment`: suspended parse, `tfun_pos`, raw buffer,
sticky assert flag, and whether the loop stopped on a failed parse
(`r = NULL` after a done chunk). -/
structure TfunAcc where
  tfun : Option TfunState
  pos : Nat
  buf : List Nat
  ok : Bool
  halted : Bool
  deriving Repr, DecidableEq

/-- Completion of a parse instance inside the driver loop
(dissect.c:360-367): emit the reassembled payload if the series was valid
(`process_transport_payload` flushes `ctx->n`), and flush `ctx->n`
regardless (line 367). -/
def applyDone (a : TfunAcc) (ast : Option (List Nat)) : TfunAcc × List Event :=
  match ast with
  | some bytes => ({ a with tfun := none, buf := [] }, [Event.transport_payload bytes])
  | none => ({ a with tfun := none, buf := [] }, [])

/-- One token of the `feed_tfun` loop.  When no parse is in progress,
`init_tfun` starts one and resets `tfun_pos` to 0 (dissect.c:216-223).  A
failed parse makes `h_parse_finish` return NULL: the `assert(r != NULL)`
in `feed_tfun` fires (recorded in `ok`) and the `while` loop exits,
discarding the rest of the batch. -/
def tfunStep1 (a : TfunAcc) (t : TokV) : TfunAcc × List Event :=
  if a.halted then (a, [])
  else
    match a.tfun with
    | none =>
        let a0 := { a with pos := 0 }
        match stepStart t with
        | StepRes.more st => ({ a0 with tfun := some st }, [])
        | StepRes.done ast => applyDone a0 ast
        | StepRes.fail => ({ a0 with tfun := none, ok := false, halted := true }, [])
    | some st =>
        match stepState st t with
        | StepRes.more st2 => ({ a with tfun := some st2 }, [])
        | StepRes.done ast => applyDone a ast
        | StepRes.fail => ({ a with tfun := none, ok := false, halted := true }, [])

/-- Feed a batch of tokens through the `feed_tfun` loop. -/
def tfunFold : TfunAcc → List TokV → TfunAcc × List Event
  | a, [] => (a, [])
  | a, t :: r =>
      let s1 := tfunStep1 a t
      let s2 := tfunFold s1.1 r
      (s2.1, s1.2 ++ s2.2)

/-- Result of processing one segment (or a run of them) in a context. -/
structure SegStep where
  ctx : Context
  events : List Event
  ok : Bool
  deriving Repr, DecidableEq

/-- `process_transport_segment` (dissect.c:335-373): emit the segment
event, tokenize against `&ctx->last_segment` (note: never NULL), save the
segment as `last_segment` (`save_last_segment` asserts
`len <= sizeof last_segment_payload`, i.e. 249), drive the recognizer,
and finally advance `tfun_pos` by the batch size. -/
def process_transport_segment (ctx : Context) (ok : Bool) (seg : DNP3_Segment) : SegStep :=
  let tks := transport_tokens seg (some ctx.last_segment)
  let a0 : TfunAcc := ⟨ctx.tfun, ctx.tfun_pos, ctx.buf,
    ok && decide (seg.payload.length ≤ 249), false⟩
  let r := tfunFold a0 tks
  ⟨{ ctx with
      last_segment := seg,
      tfun := r.1.tfun,
      tfun_pos := r.1.pos + tks.length,
      buf := r.1.buf },
   Event.transport_segment seg :: r.2, r.1.ok⟩

/-- Feed a list of segments into one context, collecting events. -/
def runSegments : Context → Bool → List DNP3_Segment → SegStep
  | ctx, ok, [] => ⟨ctx, [], ok⟩
  | ctx, ok, s :: rest =>
      let o1 := process_transport_segment ctx ok s
      let o2 := runSegments o1.ctx o1.ok rest
      ⟨o2.ctx, o1.events ++ o2.events, o2.ok⟩

/-- The `transport_payload` events among a list of events. -/
def payloadEvents (evs : List Event) : List (List Nat) :=
  evs.filterMap (fun e =>
    match e with
    | Event.transport_payload b => some b
    | _ => none)

/-- The for-loop of `lookup_context` (dissect.c:257-271): walk the list
with counter `n`; on a key match unlink and report a hit; once
`n >= CTXMAX` stop and unlink the current node for reuse. -/
def ctxScan (src dst ctxmax : Nat) : List Context → Nat → Option (Bool × Context × List Context)
  | [], _ => none
  | c :: tl, n =>
      if c.src = src ∧ c.dst = dst then some (true, c, tl)
      else if n + 1 ≥ ctxmax then some (false, c, tl)
      else
        match ctxScan src dst ctxmax tl (n + 1) with
        | some (b, x, rest) => some (b, x, c :: rest)
        | none => none

/-- Result of `lookup_context`; final table is `ctx :: rest`.  `ok`
records the asserts of `reset_tfun` (dissect.c:204-214): `h_parse_finish`
on an in-progress parse forces end of input, which no suspended prefix of
`series` can accept, so the result is NULL and `assert(r != NULL)` fires
exactly when the reclaimed node had a parse in progress. -/
structure LookupOut where
  ctx : Context
  rest : List Context
  ok : Bool
  deriving Repr, DecidableEq

/-- `lookup_context` (dissect.c:250-300).  Hit: move to front, no other
change.  Miss with table full: reclaim the scanned node, clear `n`, reset
the recognizer, set the new key - `last_segment` and `tfun_pos` are NOT
touched.  Miss otherwise: calloc a fresh node (allocation modelled as
succeeding). -/
def lookup_context (ctxmax : Nat) (tbl : List Context) (src dst : Nat) : LookupOut :=
  match ctxScan src dst ctxmax tbl 0 with
  | some (true, c, rest) => ⟨c, rest, true⟩
  | some (false, c, rest) =>
      ⟨{ c with buf := [], tfun := none, src := src, dst := dst }, rest, c.tfun.isNone⟩
  | none => ⟨freshContext src dst, tbl, true⟩

/-- Modelled from the spec: the transport-segment parser
`dnp3_p_transport_segment` is outside src/; per spec §6 the header is one
byte (bit 7 `FIR`, bit 6 `FIN`, bits 5..0 `SEQ`) and the payload is the
remainder; it fails only on empty input (`frame->len = 0`,
dissect.c:399-401). -/
def parseSegment : List Nat → Option DNP3_Segment
  | [] => none
  | h :: rest => some ⟨h.testBit 7, h.testBit 6, h % 64, rest⟩

/-- Dissector-level state: the context table (front = most recent) and
the sticky assert flag. -/
structure DissectState where
  contexts : List Context
  ok : Bool
  deriving Repr, DecidableEq

/-- `process_link_frame` (dissect.c:375-426): emit the link event; for
unconfirmed user data with a payload, look up the context, parse the
transport segment (reject if that fails), append the raw frame bytes if
they fit in `BUFLEN` (otherwise drop them but continue), and process the
segment.  Confirmed user data and other functions only emit the link
event. -/
def process_link_frame (ctxmax buflen : Nat) (st : DissectState) (f : DNP3_Frame)
    (raw : List Nat) : DissectState × List Event :=
  match f.func with
  | FrameFunc.unconfirmedUserData =>
      match f.payload with
      | none => (st, [Event.link_frame f raw])
      | some pl =>
          let L := lookup_context ctxmax st.contexts f.source f.destination
          match parseSegment pl with
          | none => (⟨L.ctx :: L.rest, st.ok && L.ok⟩,
              [Event.link_frame f raw, Event.transport_reject])
          | some seg =>
              let ctx1 := if L.ctx.buf.length + raw.length ≤ buflen
                then { L.ctx with buf := L.ctx.buf ++ raw } else L.ctx
              let P := process_transport_segment ctx1 (st.ok && L.ok) seg
              (⟨P.ctx :: L.rest, P.ok⟩, Event.link_frame f raw :: P.events)
  | FrameFunc.confirmedUserData => (st, [Event.link_frame f raw])
  | FrameFunc.other => (st, [Event.link_frame f raw])

/-- The dissector's initial state (empty context list,
dissect.c:503). -/
def initState : DissectState := ⟨[], true⟩

/-- The last segment of a series prefix `s0 :: mids`. -/
def lastSeg (s0 : DNP3_Segment) (mids : List DNP3_Segment) : DNP3_Segment :=
  mids.getLast?.getD s0

/-- A run of follow-on segments continuing an open series from a segment
with sequence number `q`: each has `fir = fin = false` and the successor
sequence number of its predecessor. -/
def chainOpen : Nat → List DNP3_Segment → Bool
  | _, [] => true
  | q, s :: r => !s.fir && !s.fin && (s.seq == (q + 1) % 64) && chainOpen s.seq r

/-- The continuation-and-close of a series started at sequence number `q`:
follow-on segments as in `chainOpen`, the last one carrying `fin`. -/
def closedTail : Nat → List DNP3_Segment → Bool
  | _, [] => false
  | q, [s] => !s.fir && s.fin && (s.seq == (q + 1) % 64)
  | q, s :: r => !s.fir && !s.fin && (s.seq == (q + 1) % 64) && closedTail s.seq r

/-- A complete segment series: a first segment with `fir`, follow-ons with
consecutive sequence numbers, and `fin` exactly on the last segment. -/
def isSeries : List DNP3_Segment → Bool
  | [] => false
  | [s] => s.fir && s.fin
  | s :: r => s.fir && !s.fin && closedTail s.seq r

/-- Shape predicate on recognizer states: idle or inside the `[+=]*`
part of a series - exactly the states reachable right after processing a
`fir=false` segment. -/
def inPEShape : Option TfunState → Bool
  | none => true
  | some (TfunState.inPE _ _) => true
  | some (TfunState.afterA _) => false

/-- `ys` is `xs` with, after any element with `fir = false`, some number of
byte-equal duplicates of it inserted. -/
inductive DupExt : List DNP3_Segment → List DNP3_Segment → Prop where
  | nil : DupExt [] []
  | keep (s : DNP3_Segment) (xs ys : List DNP3_Segment) :
      DupExt xs ys → DupExt (s :: xs) (s :: ys)
  | dup (s : DNP3_Segment) (k : Nat) (xs ys : List DNP3_Segment) :
      s.fir = false → DupExt xs ys →
      DupExt (s :: xs) (s :: (List.replicate k s ++ ys))

/-- Feed a list of (frame, raw bytes) pairs through the pipeline. -/
def runFrames (ctxmax buflen : Nat) : DissectState → List (DNP3_Frame × List Nat) →
    DissectState × List Event
  | st, [] => (st, [])
  | st, fr :: rest =>
      let o1 := process_link_frame ctxmax buflen st fr.1 fr.2
      let o2 := runFrames ctxmax buflen o1.1 rest
      (o2.1, o1.2 ++ o2.2)

/-- The (src, dst) key of a context. -/
def ctxKey (c : Context) : Nat × Nat := (c.src, c.dst)

/-- Key-level mirror of `ctxScan`: the same walk of the table, carrying
only the `(src,dst)` keys. -/
def kscan (src dst ctxmax : Nat) :
    List (Nat × Nat) → Nat → Option (Bool × (Nat × Nat) × List (Nat × Nat))
  | [], _ => none
  | k :: tl, n =>
      if k.1 = src ∧ k.2 = dst then some (true, k, tl)
      else if n + 1 ≥ ctxmax then some (false, k, tl)
      else
        match kscan src dst ctxmax tl (n + 1) with
        | some (b, x, rest) => some (b, x, k :: rest)
        | none => none

/-- Key-level mirror of `lookup_context`'s effect on the table order:
hit and reclaim both put the key in front of the scan's remainder, a
fresh allocation puts it in front of the whole table. -/
def klru (ctxmax : Nat) (ks : List (Nat × Nat)) (k : Nat × Nat) : List (Nat × Nat) :=
  match kscan k.1 k.2 ctxmax ks 0 with
  | some (_, _, rest) => k :: rest
  | none => k :: ks

/-- Keep the first occurrence of each element. -/
def dedupFirst : List (Nat × Nat) → List (Nat × Nat)
  | [] => []
  | k :: r => k :: (dedupFirst r).filter (fun x => decide (x ≠ k))

/-- The (src,dst) pairs of the frames that reach `lookup_context`:
unconfirmed user data with a payload present (the lookup happens before
the transport-segment parse, so rejected segments still count). -/
def frameAccesses (fs : List (DNP3_Frame × List Nat)) : List (Nat × Nat) :=
  fs.filterMap (fun fr =>
    match fr.1.func, fr.1.payload with
    | FrameFunc.unconfirmedUserData, some _ => some (fr.1.source, fr.1.destination)
    | _, _ => none)

/-! ## General lemmas about the embedding -/

lemma payloadEvents_append (a b : List Event) :
    payloadEvents (a ++ b) = payloadEvents a ++ payloadEvents b := by
  simp [payloadEvents, List.filterMap_append]

lemma payloadEvents_segment (s : DNP3_Segment) (evs : List Event) :
    payloadEvents (Event.transport_segment s :: evs) = payloadEvents evs := by
  simp [payloadEvents]

lemma succ_mod64_ne (q : Nat) : (q + 1) % 64 ≠ q := by
  intro h
  have h1 : (q + 1) % 64 < 64 := Nat.mod_lt _ (by omega)
  rcases Nat.lt_or_ge (q + 1) 64 with h2 | h2
  · rw [Nat.mod_eq_of_lt h2] at h
    omega
  · have h3 : q ≥ 63 := by omega
    omega

lemma segment_equal_seq (a b : DNP3_Segment) (h : segment_equal a b = true) :
    a.seq = b.seq := by
  simp [segment_equal] at h
  tauto

lemma segment_equal_of_seq_ne (a b : DNP3_Segment) (h : a.seq ≠ b.seq) :
    segment_equal a b = false := by
  rcases he : segment_equal a b with _ | _
  · rfl
  · exact absurd (segment_equal_seq a b he) h

lemma segment_equal_refl (a : DNP3_Segment) : segment_equal a a = true := by
  simp [segment_equal]

/-- `runSegments` distributes over appended segment lists. -/
lemma runSegments_append (l1 l2 : List DNP3_Segment) : ∀ (ctx : Context) (ok : Bool),
    runSegments ctx ok (l1 ++ l2) =
      ⟨(runSegments (runSegments ctx ok l1).ctx (runSegments ctx ok l1).ok l2).ctx,
       (runSegments ctx ok l1).events ++
         (runSegments (runSegments ctx ok l1).ctx (runSegments ctx ok l1).ok l2).events,
       (runSegments (runSegments ctx ok l1).ctx (runSegments ctx ok l1).ok l2).ok⟩ := by
  induction l1 with
  | nil => intro ctx ok; simp [runSegments]
  | cons s r ih =>
      intro ctx ok
      show runSegments ctx ok (s :: (r ++ l2)) = _
      simp only [runSegments]
      rw [ih]
      simp [List.append_assoc]

/-! ## Bookkeeping lemmas for the feed loop -/

lemma tfunStep1_pos_none (a : TfunAcc) (t : TokV) (hh : a.halted = false)
    (ht : a.tfun = none) : (tfunStep1 a t).1.pos = 0 := by
  unfold tfunStep1
  rw [hh, ht]
  cases hs : stepStart t with
  | more st => simp [hs]
  | done ast => cases ast <;> simp [hs, applyDone]
  | fail => simp [hs]

lemma tfunStep1_pos_keep (a : TfunAcc) (t : TokV) (h : a.pos = 0) :
    (tfunStep1 a t).1.pos = 0 := by
  unfold tfunStep1
  cases hh : a.halted with
  | true => simpa using h
  | false =>
      cases ht : a.tfun with
      | none =>
          cases hs : stepStart t with
          | more st => simp [hs]
          | done ast => cases ast <;> simp [hs, applyDone]
          | fail => simp [hs]
      | some st =>
          cases hs : stepState st t with
          | more st2 => simpa [hs] using h
          | done ast => cases ast <;> simpa [hs, applyDone] using h
          | fail => simpa [hs] using h

lemma tfunFold_pos (tks : List TokV) : ∀ a : TfunAcc, a.pos = 0 →
    (tfunFold a tks).1.pos = 0 := by
  induction tks with
  | nil => intro a h; simpa [tfunFold] using h
  | cons t r ih =>
      intro a h
      simp only [tfunFold]
      exact ih _ (tfunStep1_pos_keep a t h)

/-! ## Claim C7 -/

/-- C7 counterexample: `tfun_pos` is neither non-decreasing nor the
lifetime token count.  A single-segment series (tokens `A Z`) leaves
`tfun_pos = 2`; the next segment (token `!`) starts a fresh parse
instance, whose `init_tfun` resets `tfun_pos` to 0, leaving `tfun_pos =
1` although three tokens have been fed to the context overall. -/
theorem c7_counterexample :
    (runSegments (freshContext 0 1) true
        [⟨true, true, 0, []⟩]).ctx.tfun_pos = 2 ∧
    (runSegments (freshContext 0 1) true
        [⟨true, true, 0, []⟩, ⟨false, false, 2, [7]⟩]).ctx.tfun_pos = 1 ∧
    (transport_tokens ⟨true, true, 0, []⟩ (some zeroSegment)).length +
      (transport_tokens ⟨false, false, 2, [7]⟩ (some ⟨true, true, 0, []⟩)).length = 3 ∧
    (1 : Nat) ≠ 3 ∧ ¬ (2 : Nat) ≤ 1 := by
  decide

/-- C7 (amended): `tfun_pos` counts the tokens fed to the current
recognizer instance, not a lifetime total: `init_tfun` resets it to 0
whenever a new instance starts, so after processing a segment in a
context with no in-progress parse it equals that segment's token count. -/
theorem c7_amended (ctx : Context) (ok : Bool) (seg : DNP3_Segment)
    (h : ctx.tfun = none) :
    (process_transport_segment ctx ok seg).ctx.tfun_pos =
      (transport_tokens seg (some ctx.last_segment)).length := by
  unfold process_transport_segment
  simp only []
  have hfold : (tfunFold
      ⟨ctx.tfun, ctx.tfun_pos, ctx.buf, ok && decide (seg.payload.length ≤ 249), false⟩
      (transport_tokens seg (some ctx.last_segment))).1.pos = 0 := by
    unfold transport_tokens
    simp only [tfunFold]
    apply tfunFold_pos
    exact tfunStep1_pos_none _ _ rfl h
  simp [hfold]

/-- C7 amended, witness: a single-segment series processed by a fresh
context leaves `tfun_pos` equal to its token count. -/
theorem c7_amended_witness :
    (freshContext 3 4).tfun = none ∧
    (process_transport_segment (freshContext 3 4) true ⟨true, true, 0, []⟩).ctx.tfun_pos =
      (transport_tokens ⟨true, true, 0, []⟩
        (some (freshContext 3 4).last_segment)).length :=
  ⟨rfl, c7_amended (freshContext 3 4) true ⟨true, true, 0, []⟩ rfl⟩

/-! ## Claim C2 -/

/-- C2: the claim fails on the code and the code contradicts its own
asserts.  The token sequence `A + A` (a first segment, a successor
segment, then a new first segment) is derivable from arriving segments,
but the grammar `series = A+ [+=]* (Z | [^AZ+=])` admits no continuation
of `A +` by `A`: the parse fails, `h_parse_finish` returns NULL, and
`assert(r != NULL)` in `feed_tfun` (dissect.c:242, "tfun always
accepts") fires.  The run below evaluates the pipeline on that input and
the sticky assert flag comes out false. -/
theorem c2_assert_failure :
    (runSegments (freshContext 0 1) true
      [⟨true, false, 0, [5]⟩, ⟨false, false, 1, [6]⟩, ⟨true, false, 2, [7]⟩]).ok = false := by
  decide

/-! ## Claim C8 -/

/-- C8 counterexample: a `fir=false` segment arriving at a fresh context
(no prior segment observed) is NOT tokenized as the orphan `_`:
`process_transport_segment` always passes the address of the embedded
`ctx->last_segment`, so the `last == NULL` branch of `transport_tokens`
is unreachable and the segment is classified against the zero segment -
here as a gap `!`. -/
theorem c8_counterexample :
    transport_tokens ⟨false, false, 5, [1]⟩ (some (freshContext 7 8).last_segment) =
      [TokV.bang] ∧ TokV.bang ≠ TokV.orph := by
  decide

/-- A `fir=false` segment with a (always) present `last` is tokenized as
one of `=`, `+`, `!` - never as `A`, never as `_`. -/
lemma transport_tokens_notA (s l : DNP3_Segment) (hf : s.fir = false) :
    ∃ t, transport_tokens s (some l) = t :: (if s.fin then [TokV.Z] else []) ∧
      (∀ v, t ≠ TokV.A v) ∧ t ≠ TokV.orph := by
  refine ⟨if segment_equal s l then TokV.eq
    else if s.seq == (l.seq + 1) % 64 then TokV.plus s else TokV.bang, ?_, ?_, ?_⟩
  · simp [transport_tokens, hf]
  · intro v
    split_ifs <;> simp
  · split_ifs <;> simp

/-- Every token of a `fir=false` segment's batch is a non-`A` token. -/
lemma transport_tokens_all_notA (s l : DNP3_Segment) (hf : s.fir = false) :
    ∀ x ∈ transport_tokens s (some l), ∀ v, x ≠ TokV.A v := by
  obtain ⟨t, htk, htA, _⟩ := transport_tokens_notA s l hf
  rw [htk]
  intro x hx
  rcases List.mem_cons.mp hx with h1 | h1
  · subst h1
    exact htA
  · cases hfin : s.fin
    · rw [hfin] at h1
      simp at h1
    · rw [hfin] at h1
      simp at h1
      subst h1
      simp

/-- Feeding a non-`A` token to an idle recognizer completes the `[^A]`
alternative at once: no parse remains in progress and no event is
emitted. -/
lemma tfunStep1_none_notA (a : TfunAcc) (t : TokV) (hh : a.halted = false)
    (htf : a.tfun = none) (ht : ∀ v, t ≠ TokV.A v) :
    (tfunStep1 a t).1.tfun = none ∧ (tfunStep1 a t).1.halted = false ∧
    (tfunStep1 a t).2 = [] := by
  cases t with
  | A v => exact absurd rfl (ht v)
  | eq => simp [tfunStep1, hh, htf, stepStart, applyDone]
  | plus v => simp [tfunStep1, hh, htf, stepStart, applyDone]
  | bang => simp [tfunStep1, hh, htf, stepStart, applyDone]
  | orph => simp [tfunStep1, hh, htf, stepStart, applyDone]
  | Z => simp [tfunStep1, hh, htf, stepStart, applyDone]

/-- A batch of non-`A` tokens fed from an idle recognizer emits nothing
and leaves the recognizer idle. -/
lemma tfunFold_none_notA (tks : List TokV) : ∀ (a : TfunAcc), a.halted = false →
    a.tfun = none → (∀ t ∈ tks, ∀ v, t ≠ TokV.A v) →
    (tfunFold a tks).1.tfun = none ∧ (tfunFold a tks).1.halted = false ∧
    (tfunFold a tks).2 = [] := by
  induction tks with
  | nil =>
      intro a h1 h2 _
      exact ⟨h2, h1, rfl⟩
  | cons t r ih =>
      intro a h1 h2 h3
      have hs := tfunStep1_none_notA a t h1 h2 (h3 t (by simp))
      have hr := ih (tfunStep1 a t).1 hs.2.1 hs.1 (fun x hx => h3 x (by simp [hx]))
      simp only [tfunFold]
      exact ⟨hr.1, hr.2.1, by rw [hs.2.2, hr.2.2]; rfl⟩

/-- Processing a `fir=false` segment in a context with an idle recognizer
emits only the `transport_segment` event and leaves the recognizer
idle. -/
lemma pts_idle_notA (ctx : Context) (ok : Bool) (s : DNP3_Segment)
    (hidle : ctx.tfun = none) (hf : s.fir = false) :
    (process_transport_segment ctx ok s).events = [Event.transport_segment s] ∧
    (process_transport_segment ctx ok s).ctx.tfun = none := by
  have hfold := tfunFold_none_notA (transport_tokens s (some ctx.last_segment))
    ⟨ctx.tfun, ctx.tfun_pos, ctx.buf, ok && decide (s.payload.length ≤ 249), false⟩
    rfl hidle (transport_tokens_all_notA s ctx.last_segment hf)
  unfold process_transport_segment
  dsimp only
  exact ⟨by rw [hfold.2.2], hfold.1⟩

/-- C8 (amended): a `fir=false` segment at a fresh context is classified
relative to the calloc-zeroed `last_segment` (as `=`, `+` or `!`, never
as the orphan `_`); a `transport_segment` event is emitted for it and no
`transport_payload` event results. -/
theorem c8_amended (src dst : Nat) (ok : Bool) (seg : DNP3_Segment)
    (h : seg.fir = false) :
    payloadEvents (runSegments (freshContext src dst) ok [seg]).events = [] ∧
    (runSegments (freshContext src dst) ok [seg]).events.head? =
      some (Event.transport_segment seg) ∧
    ∀ t ∈ transport_tokens seg (some (freshContext src dst).last_segment),
      t ≠ TokV.orph := by
  have hp := pts_idle_notA (freshContext src dst) ok seg rfl h
  obtain ⟨t, htk, _, hto⟩ :=
    transport_tokens_notA seg (freshContext src dst).last_segment h
  refine ⟨?_, ?_, ?_⟩
  · simp [runSegments, hp.1, payloadEvents]
  · simp [runSegments, hp.1]
  · rw [htk]
    intro x hx
    rcases List.mem_cons.mp hx with h1 | h1
    · subst h1
      exact hto
    · cases hfin : seg.fin
      · rw [hfin] at h1
        simp at h1
      · rw [hfin] at h1
        simp at h1
        subst h1
        simp

/-- C8 amended, witness at a concrete orphan-like segment. -/
theorem c8_amended_witness :
    (⟨false, false, 5, [1]⟩ : DNP3_Segment).fir = false ∧
    (payloadEvents (runSegments (freshContext 7 8) true
        [⟨false, false, 5, [1]⟩]).events = [] ∧
     (runSegments (freshContext 7 8) true
        [⟨false, false, 5, [1]⟩]).events.head? =
        some (Event.transport_segment ⟨false, false, 5, [1]⟩) ∧
     ∀ t ∈ transport_tokens ⟨false, false, 5, [1]⟩
        (some (freshContext 7 8).last_segment), t ≠ TokV.orph) :=
  ⟨rfl, c8_amended 7 8 true ⟨false, false, 5, [1]⟩ rfl⟩

/-! ## Claim C6 -/

/-- C6 counterexample: reclaiming the LRU slot does NOT clear
`last_segment`, and a subsequent frame from the reclaimed pair never sees
an orphan classification.  With `CTXMAX = 2`: pair `(1,1)` completes a
one-segment series (its context stores that segment as `last_segment`),
pairs `(2,2)` and `(3,3)` then arrive; `(3,3)` reclaims the `(1,1)` node,
whose `last_segment` is still the old segment, not cleared.  A further
lookup for the evicted pair `(1,1)` reclaims the `(2,2)` node, and a
`fir=false` segment with `seq = 1` from `(1,1)` is then classified as `+`
against that node's zero `last_segment` - not as the orphan `_` the claim
requires. -/
theorem c6_counterexample :
    (let st := (runFrames 2 100 initState
        [(⟨FrameFunc.unconfirmedUserData, 1, 1, some [192, 9]⟩, [0, 1]),
         (⟨FrameFunc.unconfirmedUserData, 2, 2, some []⟩, []),
         (⟨FrameFunc.unconfirmedUserData, 3, 3, some []⟩, [])]).1
     (st.contexts.map (fun c => (c.src, c.dst, c.last_segment))).head? =
        some (3, 3, (⟨true, true, 0, [9]⟩ : DNP3_Segment)) ∧
     (⟨true, true, 0, [9]⟩ : DNP3_Segment) ≠ zeroSegment ∧
     transport_tokens ⟨false, false, 1, [55]⟩
        (some (lookup_context 2 st.contexts 1 1).ctx.last_segment) =
          [TokV.plus ⟨false, false, 1, [55]⟩] ∧
     TokV.plus ⟨false, false, 1, [55]⟩ ≠ TokV.orph) := by
  decide

/-- C6 (amended): on a miss with the table full, the reclaimed node gets
`n` cleared and its recognizer state freed and its key updated, but its
`last_segment` is NOT cleared; and no `fir=false` segment is ever
classified as an orphan, because the tokenizer is always called with the
embedded (non-NULL) `last_segment`. -/
theorem c6_amended (ctxmax : Nat) (tbl : List Context) (src dst : Nat)
    (c : Context) (rest : List Context)
    (h : ctxScan src dst ctxmax tbl 0 = some (false, c, rest)) :
    lookup_context ctxmax tbl src dst =
      ⟨{ c with buf := [], tfun := none, src := src, dst := dst }, rest, c.tfun.isNone⟩ ∧
    (lookup_context ctxmax tbl src dst).ctx.last_segment = c.last_segment ∧
    ∀ (s l : DNP3_Segment), s.fir = false →
      ∀ t ∈ transport_tokens s (some l), t ≠ TokV.orph := by
  refine ⟨?_, ?_, ?_⟩
  · simp [lookup_context, h]
  · simp [lookup_context, h]
  · intro s l hf t ht
    obtain ⟨t0, htk, _, hto⟩ := transport_tokens_notA s l hf
    rw [htk] at ht
    rcases List.mem_cons.mp ht with h1 | h1
    · subst h1
      exact hto
    · cases hfin : s.fin
      · rw [hfin] at h1
        simp at h1
      · rw [hfin] at h1
        simp at h1
        subst h1
        simp

/-- C6 amended, witness: a concrete full table whose node is reclaimed. -/
theorem c6_amended_witness :
    ctxScan 9 9 1 [{ freshContext 5 5 with last_segment := ⟨true, true, 3, [1]⟩ }] 0 =
      some (false, { freshContext 5 5 with last_segment := ⟨true, true, 3, [1]⟩ }, []) ∧
    (lookup_context 1 [{ freshContext 5 5 with last_segment := ⟨true, true, 3, [1]⟩ }] 9 9 =
      ⟨{ { freshContext 5 5 with last_segment := ⟨true, true, 3, [1]⟩ } with
          buf := [], tfun := none, src := 9, dst := 9 }, [],
        ({ freshContext 5 5 with last_segment := ⟨true, true, 3, [1]⟩ } : Context).tfun.isNone⟩ ∧
     (lookup_context 1 [{ freshContext 5 5 with last_segment := ⟨true, true, 3, [1]⟩ }] 9 9).ctx.last_segment =
        ({ freshContext 5 5 with last_segment := ⟨true, true, 3, [1]⟩ } : Context).last_segment ∧
     ∀ (s l : DNP3_Segment), s.fir = false →
       ∀ t ∈ transport_tokens s (some l), t ≠ TokV.orph) :=
  ⟨by decide,
   c6_amended 1 [{ freshContext 5 5 with last_segment := ⟨true, true, 3, [1]⟩ }] 9 9
     { freshContext 5 5 with last_segment := ⟨true, true, 3, [1]⟩ } [] (by decide)⟩

/-! ## Claim C10 -/

lemma ctxScan_hit (src dst ctxmax : Nat) (c : Context) (post : List Context)
    (hc : c.src = src ∧ c.dst = dst) :
    ∀ (pre : List Context) (n : Nat), (∀ x ∈ pre, ¬(x.src = src ∧ x.dst = dst)) →
      n + pre.length < ctxmax →
      ctxScan src dst ctxmax (pre ++ c :: post) n = some (true, c, pre ++ post) := by
  intro pre
  induction pre with
  | nil =>
      intro n _ _
      simp [ctxScan, hc]
  | cons x tl ih =>
      intro n hpre hlen
      have hx : ¬(x.src = src ∧ x.dst = dst) := hpre x (by simp)
      have hbr : ¬(n + 1 ≥ ctxmax) := by
        simp at hlen ⊢
        omega
      have hrec := ih (n + 1) (fun y hy => hpre y (by simp [hy])) (by simp at hlen ⊢; omega)
      simp [ctxScan, hx, hbr, hrec]

/-- C10: a `lookup_context` hit returns the matching context itself with
all fields unchanged, merely moved to the front of the table; every other
context is returned unchanged, in order, and no assert fires. -/
theorem c10_lookup_hit (ctxmax : Nat) (pre post : List Context) (c : Context)
    (hlen : (pre ++ c :: post).length ≤ ctxmax)
    (hpre : ∀ x ∈ pre, ¬(x.src = c.src ∧ x.dst = c.dst)) :
    lookup_context ctxmax (pre ++ c :: post) c.src c.dst = ⟨c, pre ++ post, true⟩ := by
  have hl : 0 + pre.length < ctxmax := by
    simp at hlen ⊢
    omega
  rw [lookup_context, ctxScan_hit c.src c.dst ctxmax c post ⟨rfl, rfl⟩ pre 0 hpre hl]

/-- C10 witness: a hit in a concrete two-entry table. -/
theorem c10_witness :
    lookup_context 5 [freshContext 1 1, freshContext 2 2] 2 2 =
      ⟨freshContext 2 2, [freshContext 1 1], true⟩ :=
  c10_lookup_hit 5 [freshContext 1 1] [] (freshContext 2 2) (by decide) (by decide)

/-! ## Claim C1 -/

/-- C1 counterexample: the claim quantifies over every context, but in a
context whose recognizer is mid-series past a `+` token, feeding a
complete series emits no `transport_payload` at all: the leading `A`
token has no action in the LALR state reached after `A +`, the parse
fails, and the series' own tokens are consumed by fresh `[^A]`
alternatives.  The fed pair of segments satisfies `isSeries`, yet the run
emits zero payloads instead of exactly one. -/
theorem c1_counterexample :
    (let mid := (runSegments (freshContext 1 2) true
        [⟨true, false, 0, [10]⟩, ⟨false, false, 1, [11]⟩]).ctx
     isSeries [⟨true, false, 2, [1]⟩, ⟨false, true, 3, [2]⟩] = true ∧
     payloadEvents (runSegments mid true
        [⟨true, false, 2, [1]⟩, ⟨false, true, 3, [2]⟩]).events = [] ∧
     ([] : List (List Nat)) ≠ [[1, 2]]) := by
  decide

/-! ## Series-run step lemmas -/

lemma transport_tokens_plus (s l : DNP3_Segment) (hf : s.fir = false)
    (heq : segment_equal s l = false)
    (hsq : (s.seq == (l.seq + 1) % 64) = true) :
    transport_tokens s (some l) = TokV.plus s :: (if s.fin then [TokV.Z] else []) := by
  simp [transport_tokens, hf, heq, hsq]

/-- Processing a successor segment (token `+`, no FIN) extends the open
series: the `+` value is appended to the recognizer's pending list and
nothing is emitted beyond the segment event. -/
lemma pts_plus (ctx : Context) (ok : Bool) (s a : DNP3_Segment)
    (xs : List DNP3_Segment)
    (hst : ctx.tfun = some (TfunState.afterA a) ∧ xs = [] ∨
      ctx.tfun = some (TfunState.inPE a xs))
    (hf : s.fir = false) (heq : segment_equal s ctx.last_segment = false)
    (hsq : (s.seq == (ctx.last_segment.seq + 1) % 64) = true)
    (hfin : s.fin = false) :
    (process_transport_segment ctx ok s).ctx.tfun =
      some (TfunState.inPE a (xs ++ [s])) ∧
    (process_transport_segment ctx ok s).ctx.last_segment = s ∧
    (process_transport_segment ctx ok s).ctx.buf = ctx.buf ∧
    (process_transport_segment ctx ok s).events = [Event.transport_segment s] := by
  have htk : transport_tokens s (some ctx.last_segment) = [TokV.plus s] := by
    simp [transport_tokens_plus s ctx.last_segment hf heq hsq, hfin]
  unfold process_transport_segment
  dsimp only
  rw [htk]
  rcases hst with ⟨h1, h2⟩ | h1
  · subst h2
    rw [h1]
    simp [tfunFold, tfunStep1, stepState]
  · rw [h1]
    simp [tfunFold, tfunStep1, stepState]

/-- Processing the final successor segment (tokens `+ Z`) closes the
series: the recognizer completes, `ctx->n` is flushed and the
reassembled payload is emitted. -/
lemma pts_close (ctx : Context) (ok : Bool) (s a : DNP3_Segment)
    (xs : List DNP3_Segment)
    (hst : ctx.tfun = some (TfunState.afterA a) ∧ xs = [] ∨
      ctx.tfun = some (TfunState.inPE a xs))
    (hf : s.fir = false) (heq : segment_equal s ctx.last_segment = false)
    (hsq : (s.seq == (ctx.last_segment.seq + 1) % 64) = true)
    (hfin : s.fin = true) :
    (process_transport_segment ctx ok s).ctx.tfun = none ∧
    (process_transport_segment ctx ok s).ctx.buf = [] ∧
    (process_transport_segment ctx ok s).events =
      [Event.transport_segment s,
       Event.transport_payload (seriesBytes a (xs ++ [s]))] := by
  have htk : transport_tokens s (some ctx.last_segment) = [TokV.plus s, TokV.Z] := by
    simp [transport_tokens_plus s ctx.last_segment hf heq hsq, hfin]
  unfold process_transport_segment
  dsimp only
  rw [htk]
  rcases hst with ⟨h1, h2⟩ | h1
  · subst h2
    rw [h1]
    simp [tfunFold, tfunStep1, stepState, applyDone]
  · rw [h1]
    simp [tfunFold, tfunStep1, stepState, applyDone]

/-- Processing a gap segment (token `!`, optionally followed by `Z`)
completes the recognizer via the invalid-series or `[^A]` alternative:
no payload is emitted, the raw buffer is flushed, the recognizer goes
idle. -/
lemma pts_gap (ctx : Context) (ok : Bool) (s : DNP3_Segment)
    (hf : s.fir = false) (heq : segment_equal s ctx.last_segment = false)
    (hsq : (s.seq == (ctx.last_segment.seq + 1) % 64) = false) :
    (process_transport_segment ctx ok s).ctx.tfun = none ∧
    (process_transport_segment ctx ok s).ctx.buf = [] ∧
    payloadEvents (process_transport_segment ctx ok s).events = [] := by
  cases hfin : s.fin
  · have htk : transport_tokens s (some ctx.last_segment) = [TokV.bang] := by
      simp [transport_tokens, hf, heq, hsq, hfin]
    unfold process_transport_segment
    dsimp only
    rw [htk]
    rcases htf : ctx.tfun with _ | st
    · simp [tfunFold, tfunStep1, stepStart, applyDone, payloadEvents]
    · cases st <;> simp [tfunFold, tfunStep1, stepState, applyDone, payloadEvents]
  · have htk : transport_tokens s (some ctx.last_segment) = [TokV.bang, TokV.Z] := by
      simp [transport_tokens, hf, heq, hsq, hfin]
    unfold process_transport_segment
    dsimp only
    rw [htk]
    rcases htf : ctx.tfun with _ | st
    · simp [tfunFold, tfunStep1, stepStart, applyDone, payloadEvents]
    · cases st <;>
        simp [tfunFold, tfunStep1, stepStart, stepState, applyDone, payloadEvents]

/-- Processing a first segment without FIN (token `A`) from an idle
recognizer starts a series. -/
lemma pts_A (ctx : Context) (ok : Bool) (s : DNP3_Segment)
    (hidle : ctx.tfun = none) (hfir : s.fir = true) (hfin : s.fin = false) :
    (process_transport_segment ctx ok s).ctx.tfun = some (TfunState.afterA s) ∧
    (process_transport_segment ctx ok s).ctx.last_segment = s ∧
    (process_transport_segment ctx ok s).ctx.buf = ctx.buf ∧
    (process_transport_segment ctx ok s).events = [Event.transport_segment s] := by
  have htk : transport_tokens s (some ctx.last_segment) = [TokV.A s] := by
    simp [transport_tokens, hfir, hfin]
  unfold process_transport_segment
  dsimp only
  rw [htk, hidle]
  simp [tfunFold, tfunStep1, stepStart]

/-- Processing a single-segment series (tokens `A Z`) from an idle
recognizer emits its payload at once. -/
lemma pts_AZ (ctx : Context) (ok : Bool) (s : DNP3_Segment)
    (hidle : ctx.tfun = none) (hfir : s.fir = true) (hfin : s.fin = true) :
    (process_transport_segment ctx ok s).ctx.tfun = none ∧
    (process_transport_segment ctx ok s).ctx.buf = [] ∧
    (process_transport_segment ctx ok s).events =
      [Event.transport_segment s, Event.transport_payload (seriesBytes s [])] := by
  have htk : transport_tokens s (some ctx.last_segment) = [TokV.A s, TokV.Z] := by
    simp [transport_tokens, hfir, hfin]
  unfold process_transport_segment
  dsimp only
  rw [htk, hidle]
  simp [tfunFold, tfunStep1, stepStart, stepState, applyDone]

lemma getLastD_cons (m x : DNP3_Segment) (r : List DNP3_Segment) :
    ((m :: r).getLast?).getD x = (r.getLast?).getD m := by
  cases r with
  | nil => simp
  | cons b l =>
      rw [List.getLast?_cons_cons]
      rcases h : (b :: l).getLast? with _ | y
      · have hs := List.getLast?_isSome (l := b :: l)
        rw [h] at hs
        simp at hs
      · simp

lemma runSegments_cons_events (ctx : Context) (ok : Bool) (s : DNP3_Segment)
    (rest : List DNP3_Segment) :
    (runSegments ctx ok (s :: rest)).events =
      (process_transport_segment ctx ok s).events ++
        (runSegments (process_transport_segment ctx ok s).ctx
          (process_transport_segment ctx ok s).ok rest).events := rfl

lemma runSegments_cons_ctx (ctx : Context) (ok : Bool) (s : DNP3_Segment)
    (rest : List DNP3_Segment) :
    (runSegments ctx ok (s :: rest)).ctx =
      (runSegments (process_transport_segment ctx ok s).ctx
        (process_transport_segment ctx ok s).ok rest).ctx := rfl

lemma runSegments_nil_events (ctx : Context) (ok : Bool) :
    (runSegments ctx ok []).events = [] := rfl

lemma runSegments_nil_ctx (ctx : Context) (ok : Bool) :
    (runSegments ctx ok []).ctx = ctx := rfl

lemma runSegments_append_events (l1 l2 : List DNP3_Segment) (ctx : Context) (ok : Bool) :
    (runSegments ctx ok (l1 ++ l2)).events =
      (runSegments ctx ok l1).events ++
        (runSegments (runSegments ctx ok l1).ctx (runSegments ctx ok l1).ok l2).events := by
  rw [runSegments_append]

lemma runSegments_append_ctx (l1 l2 : List DNP3_Segment) (ctx : Context) (ok : Bool) :
    (runSegments ctx ok (l1 ++ l2)).ctx =
      (runSegments (runSegments ctx ok l1).ctx (runSegments ctx ok l1).ok l2).ctx := by
  rw [runSegments_append]

/-- Driving an open series through its continuation-and-close: from a
recognizer that has consumed the series head (and possibly some `+`
segments, collected in `acc`), feeding `closedTail` segments emits
exactly the reassembled payload of the whole series. -/
lemma runClosedTail (s0 : DNP3_Segment) :
    ∀ (rest : List DNP3_Segment) (ctx : Context) (ok : Bool) (acc : List DNP3_Segment),
      (ctx.tfun = some (TfunState.afterA s0) ∧ acc = [] ∨
        ctx.tfun = some (TfunState.inPE s0 acc)) →
      closedTail ctx.last_segment.seq rest = true →
      payloadEvents (runSegments ctx ok rest).events =
        [seriesBytes s0 (acc ++ rest)] := by
  intro rest
  induction rest with
  | nil =>
      intro ctx ok acc hst hct
      simp [closedTail] at hct
  | cons s r ih =>
      intro ctx ok acc hst hct
      cases r with
      | nil =>
          have h1 : s.fir = false ∧ s.fin = true ∧ s.seq = (ctx.last_segment.seq + 1) % 64 := by
            simpa [closedTail, and_assoc] using hct
          have heq : segment_equal s ctx.last_segment = false := by
            apply segment_equal_of_seq_ne
            rw [h1.2.2]
            exact succ_mod64_ne _
          have hp := pts_close ctx ok s s0 acc hst h1.1 heq
            (by simp [h1.2.2]) h1.2.1
          rw [runSegments_cons_events, payloadEvents_append, hp.2.2,
            runSegments_nil_events]
          simp [payloadEvents]
      | cons s2 r2 =>
          have h1 : s.fir = false ∧ s.fin = false ∧ s.seq = (ctx.last_segment.seq + 1) % 64 ∧
              closedTail s.seq (s2 :: r2) = true := by
            simpa [closedTail, and_assoc] using hct
          have heq : segment_equal s ctx.last_segment = false := by
            apply segment_equal_of_seq_ne
            rw [h1.2.2.1]
            exact succ_mod64_ne _
          have hp := pts_plus ctx ok s s0 acc hst h1.1 heq
            (by simp [h1.2.2.1]) h1.2.1
          have hrec := ih (process_transport_segment ctx ok s).ctx
            (process_transport_segment ctx ok s).ok (acc ++ [s])
            (Or.inr hp.1) (by rw [hp.2.1]; exact h1.2.2.2)
          rw [runSegments_cons_events, payloadEvents_append, hp.2.2.2, hrec]
          simp [payloadEvents]

/-- Driving an open series through more open segments: the recognizer
accumulates the `+` values, the last segment becomes `last_segment`, and
nothing is emitted beyond segment events. -/
lemma runOpenChain (s0 : DNP3_Segment) :
    ∀ (mids : List DNP3_Segment) (ctx : Context) (ok : Bool) (acc : List DNP3_Segment),
      (ctx.tfun = some (TfunState.afterA s0) ∧ acc = [] ∨
        ctx.tfun = some (TfunState.inPE s0 acc)) →
      chainOpen ctx.last_segment.seq mids = true →
      ((runSegments ctx ok mids).ctx.tfun = some (TfunState.afterA s0) ∧ acc ++ mids = [] ∨
        (runSegments ctx ok mids).ctx.tfun = some (TfunState.inPE s0 (acc ++ mids))) ∧
      (runSegments ctx ok mids).ctx.last_segment =
        (mids.getLast?).getD ctx.last_segment ∧
      payloadEvents (runSegments ctx ok mids).events = [] := by
  intro mids
  induction mids with
  | nil =>
      intro ctx ok acc hst hco
      refine ⟨?_, by simp [runSegments], by simp [runSegments, payloadEvents]⟩
      simpa [runSegments] using hst
  | cons m r ih =>
      intro ctx ok acc hst hco
      have h1 : m.fir = false ∧ m.fin = false ∧ m.seq = (ctx.last_segment.seq + 1) % 64 ∧
          chainOpen m.seq r = true := by
        simpa [chainOpen, and_assoc] using hco
      have heq : segment_equal m ctx.last_segment = false := by
        apply segment_equal_of_seq_ne
        rw [h1.2.2.1]
        exact succ_mod64_ne _
      have hp := pts_plus ctx ok m s0 acc hst h1.1 heq (by simp [h1.2.2.1]) h1.2.1
      have hrec := ih (process_transport_segment ctx ok m).ctx
        (process_transport_segment ctx ok m).ok (acc ++ [m])
        (Or.inr hp.1) (by rw [hp.2.1]; exact h1.2.2.2)
      refine ⟨?_, ?_, ?_⟩
      · rw [runSegments_cons_ctx]
        rcases hrec.1 with ⟨ha, hb⟩ | ha
        · refine Or.inl ⟨ha, ?_⟩
          simp at hb
        · refine Or.inr ?_
          simpa [List.append_assoc] using ha
      · rw [runSegments_cons_ctx, hrec.2.1, hp.2.1, getLastD_cons]
      · rw [runSegments_cons_events, payloadEvents_append, hp.2.2.2, hrec.2.2]
        simp [payloadEvents]

/-! ## Claim C1 (amended theorem and witness) -/

/-- C1 (amended): in a context whose recognizer is idle (no in-progress
series), feeding a complete segment series - a `fir` segment, successor
segments with consecutive sequence numbers, `fin` on the last - emits
exactly one `transport_payload` event carrying the concatenation of the
payloads in input order. -/
theorem c1_amended (ctx : Context) (ok : Bool) (segs : List DNP3_Segment)
    (hidle : ctx.tfun = none) (hs : isSeries segs = true) :
    payloadEvents (runSegments ctx ok segs).events =
      [(segs.map (fun s => s.payload)).flatten] := by
  cases segs with
  | nil => simp [isSeries] at hs
  | cons s0 rest =>
      cases rest with
      | nil =>
          have h1 : s0.fir = true ∧ s0.fin = true := by
            simpa [isSeries] using hs
          have hp := pts_AZ ctx ok s0 hidle h1.1 h1.2
          rw [runSegments_cons_events, payloadEvents_append, hp.2.2,
            runSegments_nil_events]
          simp [payloadEvents, seriesBytes]
      | cons s1 r =>
          have h1 : s0.fir = true ∧ s0.fin = false ∧ closedTail s0.seq (s1 :: r) = true := by
            simpa [isSeries, and_assoc] using hs
          have hp := pts_A ctx ok s0 hidle h1.1 h1.2.1
          have hrun := runClosedTail s0 (s1 :: r) (process_transport_segment ctx ok s0).ctx
            (process_transport_segment ctx ok s0).ok [] (Or.inl ⟨hp.1, rfl⟩)
            (by rw [hp.2.1]; exact h1.2.2)
          rw [runSegments_cons_events, payloadEvents_append, hp.2.2.2, hrun]
          simp [payloadEvents, seriesBytes]

/-- C1 amended, witness: spec scenario S2 (two-segment "hello"
fragment) from a fresh context. -/
theorem c1_amended_witness :
    (freshContext 1 2).tfun = none ∧
    isSeries [⟨true, false, 5, [104, 101]⟩, ⟨false, true, 6, [108, 111]⟩] = true ∧
    payloadEvents (runSegments (freshContext 1 2) true
        [⟨true, false, 5, [104, 101]⟩, ⟨false, true, 6, [108, 111]⟩]).events =
      [([(⟨true, false, 5, [104, 101]⟩ : DNP3_Segment),
         ⟨false, true, 6, [108, 111]⟩].map (fun s => s.payload)).flatten] :=
  ⟨rfl, by decide,
   c1_amended (freshContext 1 2) true
     [⟨true, false, 5, [104, 101]⟩, ⟨false, true, 6, [108, 111]⟩] rfl (by decide)⟩

/-! ## Claim C3 -/

/-- C3: an in-progress series closed by a non-`Z` token - here the
reachable case, a gap segment (`fir=false`, wrong sequence number, not a
retransmit) - emits no `transport_payload`, and `ctx.n` is reset to 0
when the recognizer completes the series.  (The orphan `_` closer is
unreachable from `process_transport_segment`, which never passes a NULL
`last`; the gap exercises the same `[^AZ+=]` closing branch.) -/
theorem c3_invalid_series (ctx : Context) (ok : Bool) (s0 g : DNP3_Segment)
    (mids : List DNP3_Segment)
    (hidle : ctx.tfun = none) (h0f : s0.fir = true) (h0z : s0.fin = false)
    (hm : chainOpen s0.seq mids = true)
    (hg1 : g.fir = false)
    (hg2 : segment_equal g (lastSeg s0 mids) = false)
    (hg3 : (g.seq == ((lastSeg s0 mids).seq + 1) % 64) = false) :
    payloadEvents (runSegments ctx ok (s0 :: (mids ++ [g]))).events = [] ∧
    (runSegments ctx ok (s0 :: (mids ++ [g]))).ctx.buf = [] := by
  have hp := pts_A ctx ok s0 hidle h0f h0z
  have hopen := runOpenChain s0 mids (process_transport_segment ctx ok s0).ctx
    (process_transport_segment ctx ok s0).ok [] (Or.inl ⟨hp.1, rfl⟩)
    (by rw [hp.2.1]; exact hm)
  have hlast : (runSegments (process_transport_segment ctx ok s0).ctx
      (process_transport_segment ctx ok s0).ok mids).ctx.last_segment = lastSeg s0 mids := by
    rw [hopen.2.1, hp.2.1]
    rfl
  have hgap := pts_gap (runSegments (process_transport_segment ctx ok s0).ctx
      (process_transport_segment ctx ok s0).ok mids).ctx
    (runSegments (process_transport_segment ctx ok s0).ctx
      (process_transport_segment ctx ok s0).ok mids).ok g
    hg1 (by rw [hlast]; exact hg2) (by rw [hlast]; exact hg3)
  constructor
  · rw [runSegments_cons_events, payloadEvents_append, hp.2.2.2,
      runSegments_append_events, payloadEvents_append, hopen.2.2,
      runSegments_cons_events, payloadEvents_append, hgap.2.2,
      runSegments_nil_events]
    simp [payloadEvents]
  · rw [runSegments_cons_ctx, runSegments_append_ctx, runSegments_cons_ctx,
      runSegments_nil_ctx]
    exact hgap.2.1

/-- C3 witness: spec scenario S4 (gap aborts): `A(5)` then a segment
with sequence 9 - no payload, raw buffer flushed. -/
theorem c3_witness :
    ({ freshContext 1 2 with buf := [1, 2] } : Context).tfun = none ∧
    payloadEvents (runSegments { freshContext 1 2 with buf := [1, 2] } true
        [⟨true, false, 5, [104]⟩, ⟨false, false, 9, [63]⟩]).events = [] ∧
    (runSegments { freshContext 1 2 with buf := [1, 2] } true
        [⟨true, false, 5, [104]⟩, ⟨false, false, 9, [63]⟩]).ctx.buf = [] :=
  ⟨rfl,
   (c3_invalid_series { freshContext 1 2 with buf := [1, 2] } true
     ⟨true, false, 5, [104]⟩ ⟨false, false, 9, [63]⟩ []
     rfl rfl rfl (by decide) rfl (by decide) (by decide)).1,
   (c3_invalid_series { freshContext 1 2 with buf := [1, 2] } true
     ⟨true, false, 5, [104]⟩ ⟨false, false, 9, [63]⟩ []
     rfl rfl rfl (by decide) rfl (by decide) (by decide)).2⟩

/-! ## Claim C4: congruence, shape and duplicate lemmas -/

/-- The recognizer-relevant components of one feed step depend only on
the suspended parse and the halt flag, not on `pos`, `buf` or `ok`. -/
lemma tfunStep1_cong (a b : TfunAcc) (t : TokV) (h1 : a.tfun = b.tfun)
    (h2 : a.halted = b.halted) :
    (tfunStep1 a t).1.tfun = (tfunStep1 b t).1.tfun ∧
    (tfunStep1 a t).1.halted = (tfunStep1 b t).1.halted ∧
    (tfunStep1 a t).2 = (tfunStep1 b t).2 := by
  unfold tfunStep1
  rw [h1, h2]
  cases hb : b.halted with
  | true => exact ⟨h1, h2, rfl⟩
  | false =>
      cases htf : b.tfun with
      | none =>
          cases hs : stepStart t with
          | more st => simp [hs]
          | done ast => cases ast <;> simp [hs, applyDone, h2]
          | fail => simp [hs]
      | some st =>
          cases hs : stepState st t with
          | more st2 => simp [hs, h2]
          | done ast => cases ast <;> simp [hs, applyDone, h2]
          | fail => simp [hs]

lemma tfunFold_cong (tks : List TokV) : ∀ (a b : TfunAcc), a.tfun = b.tfun →
    a.halted = b.halted →
    (tfunFold a tks).1.tfun = (tfunFold b tks).1.tfun ∧
    (tfunFold a tks).1.halted = (tfunFold b tks).1.halted ∧
    (tfunFold a tks).2 = (tfunFold b tks).2 := by
  induction tks with
  | nil =>
      intro a b h1 h2
      exact ⟨h1, h2, rfl⟩
  | cons t r ih =>
      intro a b h1 h2
      have hs := tfunStep1_cong a b t h1 h2
      have hr := ih (tfunStep1 a t).1 (tfunStep1 b t).1 hs.1 hs.2.1
      simp only [tfunFold]
      exact ⟨hr.1, hr.2.1, by rw [hs.2.2, hr.2.2]⟩

/-- Processing a segment in two contexts that agree on recognizer state
and `last_segment` produces the same events, final recognizer state and
final `last_segment` - `buf`, `tfun_pos` and `ok` do not influence
them. -/
lemma pts_cong (c1 c2 : Context) (o1 o2 : Bool) (s : DNP3_Segment)
    (h1 : c1.tfun = c2.tfun) (h2 : c1.last_segment = c2.last_segment) :
    (process_transport_segment c1 o1 s).ctx.tfun =
      (process_transport_segment c2 o2 s).ctx.tfun ∧
    (process_transport_segment c1 o1 s).ctx.last_segment =
      (process_transport_segment c2 o2 s).ctx.last_segment ∧
    (process_transport_segment c1 o1 s).events =
      (process_transport_segment c2 o2 s).events := by
  unfold process_transport_segment
  dsimp only
  rw [h2]
  have hfc := tfunFold_cong (transport_tokens s (some c2.last_segment))
    ⟨c1.tfun, c1.tfun_pos, c1.buf, o1 && decide (s.payload.length ≤ 249), false⟩
    ⟨c2.tfun, c2.tfun_pos, c2.buf, o2 && decide (s.payload.length ≤ 249), false⟩
    h1 rfl
  exact ⟨hfc.1, rfl, by rw [hfc.2.2]⟩

/-- A non-`A` token never fails the parse and leaves the recognizer idle
or in the `[+=]*` part of a series. -/
lemma tfunStep1_notA_shape (a : TfunAcc) (t : TokV) (hh : a.halted = false)
    (ht : ∀ v, t ≠ TokV.A v) :
    (tfunStep1 a t).1.halted = false ∧
    inPEShape (tfunStep1 a t).1.tfun = true := by
  cases htf : a.tfun with
  | none =>
      cases t with
      | A v => exact absurd rfl (ht v)
      | eq => simp [tfunStep1, hh, htf, stepStart, applyDone, inPEShape]
      | plus v => simp [tfunStep1, hh, htf, stepStart, applyDone, inPEShape]
      | bang => simp [tfunStep1, hh, htf, stepStart, applyDone, inPEShape]
      | orph => simp [tfunStep1, hh, htf, stepStart, applyDone, inPEShape]
      | Z => simp [tfunStep1, hh, htf, stepStart, applyDone, inPEShape]
  | some st =>
      cases st with
      | afterA p =>
          cases t with
          | A v => exact absurd rfl (ht v)
          | eq => simp [tfunStep1, hh, htf, stepState, applyDone, inPEShape]
          | plus v => simp [tfunStep1, hh, htf, stepState, applyDone, inPEShape]
          | bang => simp [tfunStep1, hh, htf, stepState, applyDone, inPEShape]
          | orph => simp [tfunStep1, hh, htf, stepState, applyDone, inPEShape]
          | Z => simp [tfunStep1, hh, htf, stepState, applyDone, inPEShape]
      | inPE p q =>
          cases t with
          | A v => exact absurd rfl (ht v)
          | eq => simp [tfunStep1, hh, htf, stepState, applyDone, inPEShape]
          | plus v => simp [tfunStep1, hh, htf, stepState, applyDone, inPEShape]
          | bang => simp [tfunStep1, hh, htf, stepState, applyDone, inPEShape]
          | orph => simp [tfunStep1, hh, htf, stepState, applyDone, inPEShape]
          | Z => simp [tfunStep1, hh, htf, stepState, applyDone, inPEShape]

/-- A `Z` token always completes the parse instance. -/
lemma tfunStep1_Z (a : TfunAcc) (hh : a.halted = false) :
    (tfunStep1 a TokV.Z).1.tfun = none := by
  cases htf : a.tfun with
  | none => simp [tfunStep1, hh, htf, stepStart, applyDone]
  | some st => cases st <;> simp [tfunStep1, hh, htf, stepState, applyDone]

/-- Shape of a context after processing a `fir=false` segment: the
segment is the new `last_segment`; if it had FIN the recognizer is idle;
in any case the recognizer is idle or in the `[+=]*` part. -/
lemma pts_shape (c : Context) (ok : Bool) (s : DNP3_Segment) (hf : s.fir = false) :
    (process_transport_segment c ok s).ctx.last_segment = s ∧
    (s.fin = true → (process_transport_segment c ok s).ctx.tfun = none) ∧
    inPEShape (process_transport_segment c ok s).ctx.tfun = true := by
  obtain ⟨t, htk, htA, _⟩ := transport_tokens_notA s c.last_segment hf
  have hstep := tfunStep1_notA_shape
    ⟨c.tfun, c.tfun_pos, c.buf, ok && decide (s.payload.length ≤ 249), false⟩ t rfl htA
  cases hfin : s.fin
  · have htk2 : transport_tokens s (some c.last_segment) = [t] := by
      rw [htk, hfin]
      simp
    unfold process_transport_segment
    dsimp only
    rw [htk2]
    refine ⟨rfl, ?_, ?_⟩
    · intro hc
      simp [hfin] at hc
    · simpa only [tfunFold] using hstep.2
  · have htk2 : transport_tokens s (some c.last_segment) = [t, TokV.Z] := by
      rw [htk, hfin]
      simp
    have hz := tfunStep1_Z (tfunStep1
      ⟨c.tfun, c.tfun_pos, c.buf, ok && decide (s.payload.length ≤ 249), false⟩ t).1
      hstep.1
    unfold process_transport_segment
    dsimp only
    rw [htk2]
    refine ⟨rfl, ?_, ?_⟩
    · intro _
      simpa only [tfunFold] using hz
    · simp only [tfunFold]
      rw [hz]
      rfl

/-- Processing a byte-equal duplicate of the previous `fir=false` segment
(token `=`, plus `Z` if FIN - in which case the recognizer is already
idle): the recognizer state and `last_segment` are unchanged and only
the segment event is emitted. -/
lemma pts_dup (c : Context) (ok : Bool) (d : DNP3_Segment) (hf : d.fir = false)
    (hl : c.last_segment = d)
    (hsh : inPEShape c.tfun = true)
    (hfc : d.fin = true → c.tfun = none) :
    (process_transport_segment c ok d).ctx.tfun = c.tfun ∧
    (process_transport_segment c ok d).ctx.last_segment = d ∧
    (process_transport_segment c ok d).events = [Event.transport_segment d] := by
  have htk0 : transport_tokens d (some c.last_segment) =
      TokV.eq :: (if d.fin then [TokV.Z] else []) := by
    rw [hl]
    simp [transport_tokens, hf, segment_equal_refl]
  cases hfin : d.fin
  · have htk : transport_tokens d (some c.last_segment) = [TokV.eq] := by
      rw [htk0, hfin]
      simp
    unfold process_transport_segment
    dsimp only
    rw [htk]
    rcases htf : c.tfun with _ | st
    · simp [tfunFold, tfunStep1, stepStart, applyDone]
    · cases st with
      | afterA p =>
          rw [htf] at hsh
          simp [inPEShape] at hsh
      | inPE p q =>
          simp [tfunFold, tfunStep1, stepState]
  · have hnone := hfc hfin
    have htk : transport_tokens d (some c.last_segment) = [TokV.eq, TokV.Z] := by
      rw [htk0, hfin]
      simp
    unfold process_transport_segment
    dsimp only
    rw [htk, hnone]
    simp [tfunFold, tfunStep1, stepStart, applyDone]

/-- Any number of duplicates of the context's `last_segment` re-fed in a
row change neither the recognizer state nor `last_segment`, and emit no
payload. -/
lemma runSegments_dups (d : DNP3_Segment) (hf : d.fir = false) :
    ∀ (k : Nat) (c : Context) (ok : Bool),
      c.last_segment = d → inPEShape c.tfun = true → (d.fin = true → c.tfun = none) →
      (runSegments c ok (List.replicate k d)).ctx.tfun = c.tfun ∧
      (runSegments c ok (List.replicate k d)).ctx.last_segment = d ∧
      payloadEvents (runSegments c ok (List.replicate k d)).events = [] := by
  intro k
  induction k with
  | zero =>
      intro c ok h1 h2 h3
      exact ⟨rfl, h1, rfl⟩
  | succ n ih =>
      intro c ok h1 h2 h3
      have hd := pts_dup c ok d hf h1 h2 h3
      have hr := ih (process_transport_segment c ok d).ctx
        (process_transport_segment c ok d).ok hd.2.1
        (by rw [hd.1]; exact h2) (fun hx => by rw [hd.1]; exact h3 hx)
      rw [List.replicate_succ]
      refine ⟨?_, ?_, ?_⟩
      · rw [runSegments_cons_ctx, hr.1, hd.1]
      · rw [runSegments_cons_ctx, hr.2.1]
      · rw [runSegments_cons_events, payloadEvents_append, hd.2.2, hr.2.2]
        simp [payloadEvents]

/-- Runs of a segment list and its duplicate-extension from contexts
agreeing on recognizer state and `last_segment` emit the same payload
sequence. -/
lemma dup_runs_eq : ∀ (xs ys : List DNP3_Segment), DupExt xs ys →
    ∀ (c1 c2 : Context) (o1 o2 : Bool),
      c1.tfun = c2.tfun → c1.last_segment = c2.last_segment →
      payloadEvents (runSegments c1 o1 xs).events =
        payloadEvents (runSegments c2 o2 ys).events := by
  intro xs ys h
  induction h with
  | nil =>
      intro c1 c2 o1 o2 h1 h2
      rfl
  | keep s xs ys hd ih =>
      intro c1 c2 o1 o2 h1 h2
      have hc := pts_cong c1 c2 o1 o2 s h1 h2
      rw [runSegments_cons_events, runSegments_cons_events,
        payloadEvents_append, payloadEvents_append, hc.2.2]
      rw [ih (process_transport_segment c1 o1 s).ctx (process_transport_segment c2 o2 s).ctx
        (process_transport_segment c1 o1 s).ok (process_transport_segment c2 o2 s).ok
        hc.1 hc.2.1]
  | dup s k xs ys hfir hd ih =>
      intro c1 c2 o1 o2 h1 h2
      have hc := pts_cong c1 c2 o1 o2 s h1 h2
      have hsh := pts_shape c2 o2 s hfir
      have hdups := runSegments_dups s hfir k (process_transport_segment c2 o2 s).ctx
        (process_transport_segment c2 o2 s).ok hsh.1 hsh.2.2 hsh.2.1
      rw [runSegments_cons_events, runSegments_cons_events,
        payloadEvents_append, payloadEvents_append, hc.2.2]
      congr 1
      rw [runSegments_append_events, payloadEvents_append, hdups.2.2,
        List.nil_append]
      exact ih (process_transport_segment c1 o1 s).ctx _
        (process_transport_segment c1 o1 s).ok _
        (by rw [hc.1, hdups.1]) (by rw [hc.2.1, hsh.1, hdups.2.1])

/-- C4: inserting any number of byte-equal duplicates, each immediately
after the (`fir=false`) segment it duplicates, does not change the
sequence of `transport_payload` events: each duplicate is tokenized as
`=` and contributes nothing. -/
theorem c4_retransmit (ctx : Context) (ok : Bool) (xs ys : List DNP3_Segment)
    (h : DupExt xs ys) :
    payloadEvents (runSegments ctx ok xs).events =
      payloadEvents (runSegments ctx ok ys).events :=
  dup_runs_eq xs ys h ctx ctx ok ok rfl rfl

/-- C4 witness: spec scenario S3-style retransmit - duplicating the
closing segment of a two-segment fragment leaves the emitted payload
sequence unchanged. -/
theorem c4_witness :
    payloadEvents (runSegments (freshContext 1 2) true
      [⟨true, false, 0, [1]⟩, ⟨false, true, 1, [2]⟩]).events =
    payloadEvents (runSegments (freshContext 1 2) true
      [⟨true, false, 0, [1]⟩, ⟨false, true, 1, [2]⟩, ⟨false, true, 1, [2]⟩]).events :=
  c4_retransmit (freshContext 1 2) true _ _
    (DupExt.keep _ _ _ (DupExt.dup _ 1 [] [] rfl DupExt.nil))

/-! ## Claim C9 -/

lemma tfunStep1_buf (a : TfunAcc) (t : TokV) :
    (tfunStep1 a t).1.buf = a.buf ∨ (tfunStep1 a t).1.buf = [] := by
  cases hh : a.halted with
  | true => simp [tfunStep1, hh]
  | false =>
      cases htf : a.tfun with
      | none =>
          cases hs : stepStart t with
          | more st => simp [tfunStep1, hh, htf, hs]
          | done ast => cases ast <;> simp [tfunStep1, hh, htf, hs, applyDone]
          | fail => simp [tfunStep1, hh, htf, hs]
      | some st =>
          cases hs : stepState st t with
          | more st2 => simp [tfunStep1, hh, htf, hs]
          | done ast => cases ast <;> simp [tfunStep1, hh, htf, hs, applyDone]
          | fail => simp [tfunStep1, hh, htf, hs]

lemma tfunFold_buf (tks : List TokV) : ∀ (a : TfunAcc),
    (tfunFold a tks).1.buf = a.buf ∨ (tfunFold a tks).1.buf = [] := by
  induction tks with
  | nil =>
      intro a
      exact Or.inl rfl
  | cons t r ih =>
      intro a
      rcases tfunStep1_buf a t with h | h
      · rcases ih (tfunStep1 a t).1 with h2 | h2 <;>
          simp only [tfunFold] <;> rw [h2]
        · exact Or.inl h
        · exact Or.inr rfl
      · rcases ih (tfunStep1 a t).1 with h2 | h2 <;>
          simp only [tfunFold] <;> rw [h2]
        · exact Or.inr h
        · exact Or.inr rfl

/-- `process_transport_segment` either leaves the raw buffer alone or
flushes it. -/
lemma pts_buf (c : Context) (ok : Bool) (s : DNP3_Segment) :
    (process_transport_segment c ok s).ctx.buf = c.buf ∨
    (process_transport_segment c ok s).ctx.buf = [] := by
  unfold process_transport_segment
  dsimp only
  exact tfunFold_buf _ _

/-- The node returned by `ctxScan` and the unlinked remainder all come
from the table. -/
lemma ctxScan_mem (src dst ctxmax : Nat) :
    ∀ (tbl : List Context) (n : Nat) (b : Bool) (c : Context) (rest : List Context),
      ctxScan src dst ctxmax tbl n = some (b, c, rest) →
      c ∈ tbl ∧ ∀ x ∈ rest, x ∈ tbl := by
  intro tbl
  induction tbl with
  | nil =>
      intro n b c rest h
      simp [ctxScan] at h
  | cons y tl ih =>
      intro n b c rest h
      rw [ctxScan] at h
      split at h
      · simp at h
        refine ⟨by simp [h.2.1], ?_⟩
        intro x hx
        rw [← h.2.2] at hx
        simp [hx]
      · split at h
        · simp at h
          refine ⟨by simp [h.2.1], ?_⟩
          intro x hx
          rw [← h.2.2] at hx
          simp [hx]
        · rcases hr : ctxScan src dst ctxmax tl (n + 1) with _ | ⟨b2, x2, rest2⟩
          · rw [hr] at h
            simp at h
          · rw [hr] at h
            simp at h
            have := ih (n + 1) b2 x2 rest2 hr
            refine ⟨by rw [← h.2.1]; simp [this.1], ?_⟩
            intro x hx
            rw [← h.2.2] at hx
            rcases List.mem_cons.mp hx with h3 | h3
            · simp [h3]
            · simp [this.2 x h3]

/-- The looked-up context's buffer is empty or inherited from the table,
and the rest of the table is a subset of the old one. -/
lemma lookup_buf_mem (ctxmax : Nat) (tbl : List Context) (src dst : Nat) :
    ((lookup_context ctxmax tbl src dst).ctx.buf = [] ∨
      (lookup_context ctxmax tbl src dst).ctx ∈ tbl) ∧
    ∀ x ∈ (lookup_context ctxmax tbl src dst).rest, x ∈ tbl := by
  unfold lookup_context
  rcases hs : ctxScan src dst ctxmax tbl 0 with _ | ⟨b, c, rest⟩
  · exact ⟨Or.inl rfl, fun x hx => hx⟩
  · have hm := ctxScan_mem src dst ctxmax tbl 0 b c rest hs
    cases b
    · exact ⟨Or.inl rfl, hm.2⟩
    · exact ⟨Or.inr hm.1, hm.2⟩

/-- One frame preserves the buffer bound on every context. -/
lemma plf_buf_inv (ctxmax buflen : Nat) (st : DissectState) (f : DNP3_Frame)
    (raw : List Nat) (hinv : ∀ c ∈ st.contexts, c.buf.length ≤ buflen) :
    ∀ c ∈ (process_link_frame ctxmax buflen st f raw).1.contexts,
      c.buf.length ≤ buflen := by
  have hlk := lookup_buf_mem ctxmax st.contexts f.source f.destination
  have hctx : (lookup_context ctxmax st.contexts f.source f.destination).ctx.buf.length
      ≤ buflen := by
    rcases hlk.1 with h | h
    · simp [h]
    · exact hinv _ h
  unfold process_link_frame
  rcases hfu : f.func
  case confirmedUserData => exact hinv
  case other => exact hinv
  case unconfirmedUserData =>
      rcases hp : f.payload with _ | pl
      · exact hinv
      · rcases hps : parseSegment pl with _ | seg
        · simp only [hps]
          intro c hc
          rcases List.mem_cons.mp hc with h | h
          · rw [h]
            exact hctx
          · exact hinv _ (hlk.2 c h)
        · simp only [hps]
          intro c hc
          rcases List.mem_cons.mp hc with h | h
          · subst h
            have h1 : (if (lookup_context ctxmax st.contexts f.source f.destination).ctx.buf.length
                  + raw.length ≤ buflen
                then { (lookup_context ctxmax st.contexts f.source f.destination).ctx with
                    buf := (lookup_context ctxmax st.contexts f.source f.destination).ctx.buf ++ raw }
                else (lookup_context ctxmax st.contexts f.source f.destination).ctx).buf.length
                ≤ buflen := by
              split
              · simpa using by assumption
              · exact hctx
            rcases pts_buf (if (lookup_context ctxmax st.contexts f.source f.destination).ctx.buf.length
                  + raw.length ≤ buflen
                then { (lookup_context ctxmax st.contexts f.source f.destination).ctx with
                    buf := (lookup_context ctxmax st.contexts f.source f.destination).ctx.buf ++ raw }
                else (lookup_context ctxmax st.contexts f.source f.destination).ctx)
                (st.ok && (lookup_context ctxmax st.contexts f.source f.destination).ok) seg
              with h2 | h2
            · rw [h2]
              exact h1
            · simp [h2]
          · exact hinv _ (hlk.2 c h)

lemma runFrames_cons_st (ctxmax buflen : Nat) (st : DissectState)
    (fr : DNP3_Frame × List Nat) (rest : List (DNP3_Frame × List Nat)) :
    (runFrames ctxmax buflen st (fr :: rest)).1 =
      (runFrames ctxmax buflen
        (process_link_frame ctxmax buflen st fr.1 fr.2).1 rest).1 := rfl

lemma runFrames_buf_inv (ctxmax buflen : Nat) :
    ∀ (fs : List (DNP3_Frame × List Nat)) (st : DissectState),
      (∀ c ∈ st.contexts, c.buf.length ≤ buflen) →
      ∀ c ∈ (runFrames ctxmax buflen st fs).1.contexts, c.buf.length ≤ buflen := by
  intro fs
  induction fs with
  | nil =>
      intro st h
      exact h
  | cons fr rest ih =>
      intro st h
      rw [runFrames_cons_st]
      exact ih _ (plf_buf_inv ctxmax buflen st fr.1 fr.2 h)

/-- C9: at every reachable state `ctx.n <= BUFLEN` holds for every
context; and when appending a frame's raw bytes would exceed `BUFLEN`,
the bytes are not appended but the context survives (same key, front of
table) and its segment is still processed (the step equals the
no-append step, and the `transport_segment` event is emitted). -/
theorem c9_buffer_bound (ctxmax buflen : Nat) :
    (∀ (fs : List (DNP3_Frame × List Nat)) (c : Context),
      c ∈ (runFrames ctxmax buflen initState fs).1.contexts →
      c.buf.length ≤ buflen) ∧
    (∀ (st : DissectState) (f : DNP3_Frame) (raw pl : List Nat) (seg : DNP3_Segment),
      f.func = FrameFunc.unconfirmedUserData → f.payload = some pl →
      parseSegment pl = some seg →
      buflen <
        (lookup_context ctxmax st.contexts f.source f.destination).ctx.buf.length
          + raw.length →
      process_link_frame ctxmax buflen st f raw =
        (⟨(process_transport_segment
              (lookup_context ctxmax st.contexts f.source f.destination).ctx
              (st.ok && (lookup_context ctxmax st.contexts f.source f.destination).ok)
              seg).ctx ::
            (lookup_context ctxmax st.contexts f.source f.destination).rest,
          (process_transport_segment
              (lookup_context ctxmax st.contexts f.source f.destination).ctx
              (st.ok && (lookup_context ctxmax st.contexts f.source f.destination).ok)
              seg).ok⟩,
         Event.link_frame f raw ::
           (process_transport_segment
              (lookup_context ctxmax st.contexts f.source f.destination).ctx
              (st.ok && (lookup_context ctxmax st.contexts f.source f.destination).ok)
              seg).events) ∧
      Event.transport_segment seg ∈ (process_link_frame ctxmax buflen st f raw).2) := by
  constructor
  · intro fs c hc
    exact runFrames_buf_inv ctxmax buflen fs initState (by intro x hx; simp [initState] at hx) c hc
  · intro st f raw pl seg hfu hp hps hover
    have hnot : ¬ ((lookup_context ctxmax st.contexts f.source f.destination).ctx.buf.length
        + raw.length ≤ buflen) := by omega
    have heq : process_link_frame ctxmax buflen st f raw =
        (⟨(process_transport_segment
              (lookup_context ctxmax st.contexts f.source f.destination).ctx
              (st.ok && (lookup_context ctxmax st.contexts f.source f.destination).ok)
              seg).ctx ::
            (lookup_context ctxmax st.contexts f.source f.destination).rest,
          (process_transport_segment
              (lookup_context ctxmax st.contexts f.source f.destination).ctx
              (st.ok && (lookup_context ctxmax st.contexts f.source f.destination).ok)
              seg).ok⟩,
         Event.link_frame f raw ::
           (process_transport_segment
              (lookup_context ctxmax st.contexts f.source f.destination).ctx
              (st.ok && (lookup_context ctxmax st.contexts f.source f.destination).ok)
              seg).events) := by
      unfold process_link_frame
      rw [hfu, hp]
      simp only [hps, if_neg hnot]
    refine ⟨heq, ?_⟩
    rw [heq]
    unfold process_transport_segment
    dsimp only
    simp

/-- C9 witness: with `BUFLEN = 0` every raw frame overflows; the segment
is still processed and its `transport_segment` event is emitted. -/
theorem c9_witness :
    ((⟨FrameFunc.unconfirmedUserData, 1, 1, some [192]⟩ : DNP3_Frame).func =
      FrameFunc.unconfirmedUserData) ∧
    parseSegment [192] = some ⟨true, true, 0, []⟩ ∧
    Event.transport_segment ⟨true, true, 0, []⟩ ∈
      (process_link_frame 4 0 initState
        ⟨FrameFunc.unconfirmedUserData, 1, 1, some [192]⟩ [7]).2 :=
  ⟨rfl, by decide,
   ((c9_buffer_bound 4 0).2 initState
     ⟨FrameFunc.unconfirmedUserData, 1, 1, some [192]⟩ [7] [192] ⟨true, true, 0, []⟩
     rfl rfl (by decide) (by decide)).2⟩

/-! ## Claim C5: key-level correspondence -/

/-- A scan hit matches the requested key. -/
lemma ctxScan_true_key (src dst ctxmax : Nat) :
    ∀ (tbl : List Context) (n : Nat) (c : Context) (rest : List Context),
      ctxScan src dst ctxmax tbl n = some (true, c, rest) →
      c.src = src ∧ c.dst = dst := by
  intro tbl
  induction tbl with
  | nil =>
      intro n c rest h
      simp [ctxScan] at h
  | cons y tl ih =>
      intro n c rest h
      rw [ctxScan] at h
      split at h
      · simp at h
        rw [← h.1]
        assumption
      · split at h
        · simp at h
        · rcases hr : ctxScan src dst ctxmax tl (n + 1) with _ | ⟨b2, x2, rest2⟩
          · rw [hr] at h
            simp at h
          · rw [hr] at h
            simp at h
            rw [h.1, h.2.1] at hr
            exact ih (n + 1) c rest2 hr

/-- `ctxScan` and its key-level mirror agree. -/
lemma ctxScan_map (src dst ctxmax : Nat) :
    ∀ (tbl : List Context) (n : Nat),
      (ctxScan src dst ctxmax tbl n).map
        (fun r => (r.1, ctxKey r.2.1, r.2.2.map ctxKey)) =
      kscan src dst ctxmax (tbl.map ctxKey) n := by
  intro tbl
  induction tbl with
  | nil =>
      intro n
      simp [ctxScan, kscan]
  | cons c tl ih =>
      intro n
      by_cases h1 : c.src = src ∧ c.dst = dst
      · simp [ctxScan, kscan, ctxKey, h1]
      · by_cases h2 : n + 1 ≥ ctxmax
        · simp [ctxScan, kscan, ctxKey, h1, h2]
        · have ihn := ih (n + 1)
          rcases hr : ctxScan src dst ctxmax tl (n + 1) with _ | ⟨b, x, rest⟩
          · rw [hr] at ihn
            rw [Option.map_none'] at ihn
            simp [ctxScan, kscan, ctxKey, h1, h2, hr, ← ihn]
          · rw [hr] at ihn
            rw [Option.map_some'] at ihn
            simp [ctxScan, kscan, ctxKey, h1, h2, hr, ← ihn]

/-- The keys of the table after a lookup are the `klru` update of the
keys before it. -/
lemma lookup_keys (ctxmax : Nat) (tbl : List Context) (src dst : Nat) :
    ((lookup_context ctxmax tbl src dst).ctx ::
      (lookup_context ctxmax tbl src dst).rest).map ctxKey =
    klru ctxmax (tbl.map ctxKey) (src, dst) := by
  have hm := ctxScan_map src dst ctxmax tbl 0
  unfold lookup_context klru
  rcases hs : ctxScan src dst ctxmax tbl 0 with _ | ⟨b, c, rest⟩
  · rw [hs] at hm
    rw [Option.map_none'] at hm
    rw [← hm]
    simp [ctxKey, freshContext]
  · rw [hs] at hm
    rw [Option.map_some'] at hm
    rw [← hm]
    cases b
    · simp [ctxKey]
    · have hk := ctxScan_true_key src dst ctxmax tbl 0 c rest hs
      simp [ctxKey, hk.1, hk.2]

/-- `process_transport_segment` does not change the context's key. -/
lemma pts_key (c : Context) (ok : Bool) (s : DNP3_Segment) :
    ctxKey (process_transport_segment c ok s).ctx = ctxKey c := rfl

/-- Keys of the table after one frame: the `klru` update for the frames
that reach `lookup_context`, unchanged otherwise. -/
lemma plf_keys (ctxmax buflen : Nat) (st : DissectState) (f : DNP3_Frame)
    (raw : List Nat) :
    (process_link_frame ctxmax buflen st f raw).1.contexts.map ctxKey =
      (match f.func, f.payload with
       | FrameFunc.unconfirmedUserData, some _ =>
           klru ctxmax (st.contexts.map ctxKey) (f.source, f.destination)
       | _, _ => st.contexts.map ctxKey) := by
  rcases hfu : f.func
  case confirmedUserData => simp [process_link_frame, hfu]
  case other => simp [process_link_frame, hfu]
  case unconfirmedUserData =>
      rcases hp : f.payload with _ | pl
      · simp [process_link_frame, hfu, hp]
      · have hk := lookup_keys ctxmax st.contexts f.source f.destination
        rcases hps : parseSegment pl with _ | seg
        · unfold process_link_frame
          rw [hfu, hp]
          simp only [hps]
          exact hk
        · unfold process_link_frame
          rw [hfu, hp]
          simp only [hps]
          rw [List.map_cons]
          rw [← hk, List.map_cons]
          congr 1
          rw [pts_key]
          unfold ctxKey
          split <;> rfl

lemma runFrames_keys (ctxmax buflen : Nat) :
    ∀ (fs : List (DNP3_Frame × List Nat)) (st : DissectState),
      (runFrames ctxmax buflen st fs).1.contexts.map ctxKey =
        List.foldl (klru ctxmax) (st.contexts.map ctxKey) (frameAccesses fs) := by
  intro fs
  induction fs with
  | nil =>
      intro st
      simp [runFrames, frameAccesses]
  | cons fr rest ih =>
      intro st
      rw [runFrames_cons_st, ih]
      have hstep := plf_keys ctxmax buflen st fr.1 fr.2
      rcases hfu : fr.1.func
      case confirmedUserData =>
          rw [hfu] at hstep
          rw [hstep]
          congr 1
          simp [frameAccesses, List.filterMap_cons, hfu]
      case other =>
          rw [hfu] at hstep
          rw [hstep]
          congr 1
          simp [frameAccesses, List.filterMap_cons, hfu]
      case unconfirmedUserData =>
          rcases hp : fr.1.payload with _ | pl
          · rw [hfu, hp] at hstep
            rw [hstep]
            congr 1
            simp [frameAccesses, List.filterMap_cons, hfu, hp]
          · rw [hfu, hp] at hstep
            rw [hstep]
            have : frameAccesses (fr :: rest) =
                (fr.1.source, fr.1.destination) :: frameAccesses rest := by
              simp [frameAccesses, List.filterMap_cons, hfu, hp]
            rw [this]
            simp [List.foldl]

/-! ## Claim C5: characterization of the key-level LRU update -/

lemma mem_split_first {k : Nat × Nat} : ∀ {l : List (Nat × Nat)}, k ∈ l →
    ∃ pre post, l = pre ++ k :: post ∧ k ∉ pre := by
  intro l
  induction l with
  | nil =>
      intro h
      simp at h
  | cons x tl ih =>
      intro h
      by_cases hx : x = k
      · exact ⟨[], tl, by rw [hx]; rfl, by simp⟩
      · have hk : k ∈ tl := by
          rcases List.mem_cons.mp h with h1 | h1
          · exact absurd h1.symm hx
          · exact h1
        obtain ⟨pre, post, hsp, hnp⟩ := ih hk
        refine ⟨x :: pre, post, by simp [hsp], ?_⟩
        simp only [List.mem_cons, not_or]
        exact ⟨fun hc => hx hc.symm, hnp⟩

lemma kscan_none (k : Nat × Nat) (ctxmax : Nat) :
    ∀ (ks : List (Nat × Nat)) (n : Nat), k ∉ ks → n + ks.length < ctxmax →
      kscan k.1 k.2 ctxmax ks n = none := by
  intro ks
  induction ks with
  | nil =>
      intro n _ _
      rfl
  | cons x tl ih =>
      intro n hmem hlen
      have hx : ¬(x.1 = k.1 ∧ x.2 = k.2) := by
        intro hc
        exact hmem (by simp [Prod.ext hc.1 hc.2])
      have hbr : ¬(n + 1 ≥ ctxmax) := by
        simp only [List.length_cons] at hlen
        omega
      have hrec := ih (n + 1) (fun hc => hmem (by simp [hc]))
        (by simp only [List.length_cons] at hlen; omega)
      simp [kscan, hx, hbr, hrec]

lemma kscan_hit (k : Nat × Nat) (ctxmax : Nat) (post : List (Nat × Nat)) :
    ∀ (pre : List (Nat × Nat)) (n : Nat), k ∉ pre → n + pre.length < ctxmax →
      kscan k.1 k.2 ctxmax (pre ++ k :: post) n = some (true, k, pre ++ post) := by
  intro pre
  induction pre with
  | nil =>
      intro n _ _
      simp [kscan]
  | cons x tl ih =>
      intro n hmem hlen
      have hx : ¬(x.1 = k.1 ∧ x.2 = k.2) := by
        intro hc
        exact hmem (by simp [Prod.ext hc.1 hc.2])
      have hbr : ¬(n + 1 ≥ ctxmax) := by
        simp only [List.length_cons] at hlen
        omega
      have hrec := ih (n + 1) (fun hc => hmem (by simp [hc]))
        (by simp only [List.length_cons] at hlen; omega)
      simp [kscan, hx, hbr, hrec]

lemma kscan_full (k : Nat × Nat) (ctxmax : Nat) (x : Nat × Nat) :
    ∀ (pre : List (Nat × Nat)) (n : Nat), k ∉ pre ++ [x] →
      n + pre.length + 1 = ctxmax →
      kscan k.1 k.2 ctxmax (pre ++ [x]) n = some (false, x, pre) := by
  intro pre
  induction pre with
  | nil =>
      intro n hmem hlen
      have hx : ¬(x.1 = k.1 ∧ x.2 = k.2) := by
        intro hc
        exact hmem (by simp [Prod.ext hc.1 hc.2])
      have hbr : n + 1 ≥ ctxmax := by
        simp only [List.length_nil] at hlen
        omega
      simp [kscan, hx, hbr]
  | cons y tl ih =>
      intro n hmem hlen
      have hy : ¬(y.1 = k.1 ∧ y.2 = k.2) := by
        intro hc
        exact hmem (by simp [Prod.ext hc.1 hc.2])
      have hbr : ¬(n + 1 ≥ ctxmax) := by
        simp only [List.cons_append, List.length_cons] at hlen
        omega
      have hrec := ih (n + 1) (fun hc => hmem (by simp [hc]))
        (by simp only [List.cons_append, List.length_cons] at hlen; omega)
      simp [kscan, hy, hbr, hrec]

lemma klru_hit (m : Nat) (ks : List (Nat × Nat)) (k : Nat × Nat)
    (hmem : k ∈ ks) (hlen : ks.length ≤ m) :
    klru m ks k = k :: ks.erase k := by
  obtain ⟨pre, post, hsp, hnp⟩ := mem_split_first hmem
  subst hsp
  have hplen : 0 + pre.length < m := by
    simp only [List.length_append, List.length_cons] at hlen
    omega
  unfold klru
  rw [kscan_hit k m post pre 0 hnp hplen]
  rw [List.erase_append_right _ (by simpa using hnp), List.erase_cons_head]

lemma klru_miss_small (m : Nat) (ks : List (Nat × Nat)) (k : Nat × Nat)
    (hmem : k ∉ ks) (hlen : ks.length < m) :
    klru m ks k = k :: ks := by
  unfold klru
  rw [kscan_none k m ks 0 hmem (by omega)]

lemma klru_miss_full (m : Nat) (ks : List (Nat × Nat)) (k : Nat × Nat)
    (hmem : k ∉ ks) (hlen : ks.length = m) (hm : 1 ≤ m) :
    klru m ks k = k :: ks.dropLast := by
  rcases List.eq_nil_or_concat ks with h | ⟨pre, x, h⟩
  · subst h
    simp at hlen
    omega
  · subst h
    rw [List.concat_eq_append] at hmem hlen ⊢
    unfold klru
    rw [kscan_full k m x pre 0 hmem
      (by simp only [List.length_append, List.length_cons, List.length_nil] at hlen
          omega)]
    rw [List.dropLast_concat]

lemma filter_cons_ne (k x : Nat × Nat) (tl : List (Nat × Nat)) (hx : x ≠ k) :
    (x :: tl).filter (fun y => decide (y ≠ k)) =
      x :: tl.filter (fun y => decide (y ≠ k)) := by
  rw [List.filter_cons]
  simp [hx]

lemma filter_cons_self (k : Nat × Nat) (tl : List (Nat × Nat)) :
    (k :: tl).filter (fun y => decide (y ≠ k)) =
      tl.filter (fun y => decide (y ≠ k)) := by
  rw [List.filter_cons]
  simp

lemma filter_ne_of_not_mem (k : Nat × Nat) :
    ∀ (l : List (Nat × Nat)), k ∉ l →
      l.filter (fun x => decide (x ≠ k)) = l := by
  intro l
  induction l with
  | nil =>
      intro _
      rfl
  | cons x tl ih =>
      intro h
      have hx : x ≠ k := fun hc => h (by simp [hc])
      have htl := ih (fun hc => h (by simp [hc]))
      rw [filter_cons_ne k x tl hx, htl]

lemma dedupFirst_nodup : ∀ (l : List (Nat × Nat)), (dedupFirst l).Nodup := by
  intro l
  induction l with
  | nil => simp [dedupFirst]
  | cons k r ih =>
      rw [dedupFirst]
      refine List.Nodup.cons ?_ (List.Nodup.filter _ ih)
      intro hmem
      have := List.of_mem_filter hmem
      simp at this

lemma erase_take_filter (k : Nat × Nat) :
    ∀ (X : List (Nat × Nat)) (m : Nat), X.Nodup → k ∈ X.take m →
      (X.take m).erase k = (X.filter (fun x => decide (x ≠ k))).take (m - 1) := by
  intro X
  induction X with
  | nil =>
      intro m _ h
      simp at h
  | cons x tl ih =>
      intro m hnd hmem
      cases m with
      | zero => simp at hmem
      | succ m2 =>
          rw [List.take_succ_cons] at hmem ⊢
          by_cases hx : x = k
          · subst hx
            have hknot : x ∉ tl := (List.nodup_cons.mp hnd).1
            rw [List.erase_cons_head, filter_cons_self,
              filter_ne_of_not_mem x tl hknot]
            simp
          · have hmem2 : k ∈ tl.take m2 := by
              rcases List.mem_cons.mp hmem with h | h
              · exact absurd h.symm hx
              · exact h
            obtain ⟨m3, rfl⟩ : ∃ m3, m2 = m3 + 1 := by
              cases m2 with
              | zero => simp at hmem2
              | succ m3 => exact ⟨m3, rfl⟩
            have htl := ih (m3 + 1) (List.nodup_cons.mp hnd).2 hmem2
            rw [List.erase_cons_tail (by simpa using hx), htl,
              filter_cons_ne k x tl hx]
            simp [List.take_succ_cons]

lemma take_filter_of_not_mem (k : Nat × Nat) :
    ∀ (X : List (Nat × Nat)) (m j : Nat), j < m → k ∉ X.take m →
      (X.filter (fun x => decide (x ≠ k))).take j = X.take j := by
  intro X
  induction X with
  | nil =>
      intro m j _ _
      simp
  | cons x tl ih =>
      intro m j hj hmem
      obtain ⟨m2, rfl⟩ : ∃ m2, m = m2 + 1 := ⟨m - 1, by omega⟩
      rw [List.take_succ_cons] at hmem
      have hx : x ≠ k := fun hc => hmem (by simp [hc])
      have hmem2 : k ∉ tl.take m2 := fun hc => hmem (by simp [hc])
      rw [filter_cons_ne k x tl hx]
      cases j with
      | zero => simp
      | succ j2 =>
          rw [List.take_succ_cons, List.take_succ_cons,
            ih m2 j2 (by omega) hmem2]

/-- The LRU fold from an empty table keeps, in order, the most recent
occurrence of each key, newest first, truncated to the capacity. -/
lemma klru_foldl (m : Nat) (hm : 1 ≤ m) :
    ∀ (acc : List (Nat × Nat)),
      List.foldl (klru m) [] acc = (dedupFirst acc.reverse).take m := by
  obtain ⟨m2, rfl⟩ : ∃ m2, m = m2 + 1 := ⟨m - 1, by omega⟩
  intro acc
  induction acc using List.reverseRecOn with
  | nil => simp [dedupFirst]
  | append_singleton l k ih =>
      rw [List.foldl_append, List.foldl_cons, List.foldl_nil, ih,
        List.reverse_append, List.reverse_singleton, List.singleton_append,
        dedupFirst]
      have hnd : (dedupFirst l.reverse).Nodup := dedupFirst_nodup _
      rw [List.take_succ_cons]
      by_cases hk : k ∈ (dedupFirst l.reverse).take (m2 + 1)
      · rw [klru_hit (m2 + 1) _ k hk (List.length_take_le _ _)]
        rw [erase_take_filter k _ (m2 + 1) hnd hk]
        simp only [Nat.add_sub_cancel]
      · by_cases hlen : (dedupFirst l.reverse).length < m2 + 1
        · have htake : (dedupFirst l.reverse).take (m2 + 1) = dedupFirst l.reverse :=
            List.take_of_length_le (by omega)
          rw [htake] at hk ⊢
          rw [klru_miss_small (m2 + 1) _ k hk hlen]
          rw [filter_ne_of_not_mem k _ hk]
          rw [List.take_of_length_le (by omega)]
        · have hlen2 : ((dedupFirst l.reverse).take (m2 + 1)).length = m2 + 1 := by
            rw [List.length_take]
            omega
          rw [klru_miss_full (m2 + 1) _ k hk hlen2 (by omega)]
          rw [List.dropLast_eq_take, hlen2]
          simp only [Nat.add_sub_cancel]
          rw [List.take_take]
          have hmin : min m2 (m2 + 1) = m2 := by omega
          rw [hmin]
          rw [take_filter_of_not_mem k _ (m2 + 1) m2 (by omega) hk]

/-- C5: at every reachable state the context table (a) lists, MRU first,
exactly the most recent occurrence of each contacted pair truncated to
`CTXMAX`, hence (b) holds at most `CTXMAX` contexts, (c) has pairwise
distinct keys, and (d) after more than `CTXMAX` distinct pairs holds
exactly `CTXMAX` entries - the most recently seen pairs. -/
theorem c5_lru_table (ctxmax buflen : Nat) (hm : 1 ≤ ctxmax)
    (fs : List (DNP3_Frame × List Nat)) :
    (runFrames ctxmax buflen initState fs).1.contexts.map ctxKey =
      (dedupFirst (frameAccesses fs).reverse).take ctxmax ∧
    (runFrames ctxmax buflen initState fs).1.contexts.length ≤ ctxmax ∧
    ((runFrames ctxmax buflen initState fs).1.contexts.map ctxKey).Nodup ∧
    (ctxmax < (dedupFirst (frameAccesses fs).reverse).length →
      (runFrames ctxmax buflen initState fs).1.contexts.length = ctxmax) := by
  have hkeys : (runFrames ctxmax buflen initState fs).1.contexts.map ctxKey =
      (dedupFirst (frameAccesses fs).reverse).take ctxmax := by
    rw [runFrames_keys ctxmax buflen fs initState]
    exact klru_foldl ctxmax hm (frameAccesses fs)
  have hlen := congrArg List.length hkeys
  rw [List.length_map, List.length_take] at hlen
  refine ⟨hkeys, by omega, ?_, fun hlt => by omega⟩
  rw [hkeys]
  exact List.Nodup.sublist (List.take_sublist _ _) (dedupFirst_nodup _)

/-- C5 witness: spec scenario S6-style - with `CTXMAX = 2`, three
distinct pairs leave exactly the two most recent ones, MRU first. -/
theorem c5_witness :
    (runFrames 2 8 initState
      [(⟨FrameFunc.unconfirmedUserData, 1, 1, some []⟩, []),
       (⟨FrameFunc.unconfirmedUserData, 2, 2, some []⟩, []),
       (⟨FrameFunc.unconfirmedUserData, 3, 3, some []⟩, [])]).1.contexts.map ctxKey =
      (dedupFirst (frameAccesses
        [(⟨FrameFunc.unconfirmedUserData, 1, 1, some []⟩, []),
         (⟨FrameFunc.unconfirmedUserData, 2, 2, some []⟩, []),
         (⟨FrameFunc.unconfirmedUserData, 3, 3, some []⟩, [])]).reverse).take 2 :=
  (c5_lru_table 2 8 (by decide)
    [(⟨FrameFunc.unconfirmedUserData, 1, 1, some []⟩, []),
     (⟨FrameFunc.unconfirmedUserData, 2, 2, some []⟩, []),
     (⟨FrameFunc.unconfirmedUserData, 3, 3, some []⟩, [])]).1

end Dnp3
